import Mathlib

/-!
# Verification of the Cat Trap game engine

A shallow embedding of `src/python-app/src/cat_trap_algorithms.py` (the game
board, the move model, the proximity evaluator, and the minimax / alpha-beta /
iterative-deepening search drivers), together with proofs settling the claims
of the specification.

Modelling conventions:

* The `numpy` grid is a `List (List Nat)` of tile codes; cell access is
  `gridGet`, which returns `EMPTY_TILE` outside the list bounds.  Every access
  performed by the translated code is guarded by the same bounds checks the
  Python source performs, so the out-of-bounds default is never consulted on
  the behaviours any claim talks about.
* Coordinates are `Int` pairs: the Python code manipulates possibly negative
  coordinates (the proximity walk deliberately steps off the grid and tests
  `r < 0`), so `Int` is the faithful carrier.
* Python float values (`float('inf')`, `float('-inf')`, and the integer-valued
  scores) are embedded into `V := WithBot (WithTop Int)`: `⊥` is `-inf`,
  `⊤` is `inf`, and `iv z` is the finite value `z`.  All values the engine
  produces are integers, so this ordering is exact.
* The wall-clock deadline is modelled by an oracle `Clock : Nat → Bool`
  consulted once per recursive entry (exactly where the source calls
  `self.time_left() < LAST_CALL_MS`); a tick counter is threaded through the
  recursion in evaluation order.  `clock t = true` means the deadline check
  fires at the `t`-th poll.
* The unbounded recursion of the search is driven by a `fuel : Nat` argument,
  decremented once per ply (once per recursive call, mirroring the call tree);
  when fuel runs out the functions return the same sentinel the deadline path
  returns.  Theorems about the search quantify over all fuels, or supply
  enough fuel that exhaustion is unreachable.
* The search-budget state the Python code keeps on the top-level object
  (`terminated`, `reached_max_depth`) is an explicit `SState` record threaded
  through the recursion; `max_depth` (`float('inf')` or an integer) is an
  `Option Nat` parameter (`none` = unbounded).
-/

/-! ## Tiles and the board -/

def CAT_TILE : Nat := 6
def BLOCKED_TILE : Nat := 1
def EMPTY_TILE : Nat := 0

abbrev Grid := List (List Nat)

/-- Cell read, `hexgrid[r, c]`; defaults to `EMPTY_TILE` outside the grid.
All reads the translated code performs are bounds-guarded as in the source. -/
def gridGet (g : Grid) (r c : Int) : Nat :=
  (g.getD r.toNat []).getD c.toNat EMPTY_TILE

/-- Cell write, `hexgrid[r, c] = v`; a no-op outside the grid. -/
def gridSet (g : Grid) (r c : Int) (v : Nat) : Grid :=
  g.set r.toNat ((g.getD r.toNat []).set c.toNat v)

/-- The board state of `CatTrapGame`: the grid plus the cached cat position.
The search bookkeeping (`terminated`, `reached_max_depth`, `max_depth`,
`deadline`) that Python keeps on the same object is threaded separately
(`SState`, `Option Nat`, `Clock`), since the source only ever consults it on
the root object `self` while the board fields are consulted on the copies. -/
structure CatTrapGame where
  size : Nat
  hexgrid : Grid
  cat_row : Int
  cat_col : Int
deriving Repr, DecidableEq

/-- The six hex directions. -/
inductive Dir where
  | E | W | NE | NW | SE | SW
deriving Repr, DecidableEq

open Dir

/-- `CatTrapGame.get_target_position`: the odd-row-offset neighbour table. -/
def get_target_position (r c : Int) (d : Dir) : Int × Int :=
  match d with
  | .E => (r, c + 1)
  | .W => (r, c - 1)
  | .NE => if r % 2 = 0 then (r - 1, c) else (r - 1, c + 1)
  | .NW => if r % 2 = 0 then (r - 1, c - 1) else (r - 1, c)
  | .SE => if r % 2 = 0 then (r + 1, c) else (r + 1, c + 1)
  | .SW => if r % 2 = 0 then (r + 1, c - 1) else (r + 1, c)

/-- `CatTrapGame.get_valid_moves`: the list of directions whose guarded
neighbour cell is empty, in the order the source appends them. -/
def get_valid_moves (g : CatTrapGame) : List Dir :=
  let hexgrid := g.hexgrid
  let r := g.cat_row
  let c := g.cat_col
  let size : Int := g.size
  (if c < size - 1 ∧ gridGet hexgrid r (c + 1) = EMPTY_TILE then [Dir.E] else []) ++
  (if 0 < c ∧ gridGet hexgrid r (c - 1) = EMPTY_TILE then [Dir.W] else []) ++
  (if r % 2 = 0 then
    (if 0 < r ∧ c < size ∧ gridGet hexgrid (r - 1) c = EMPTY_TILE then [Dir.NE] else []) ++
    (if 0 < r ∧ 0 < c ∧ gridGet hexgrid (r - 1) (c - 1) = EMPTY_TILE then [Dir.NW] else []) ++
    (if r < size - 1 ∧ c < size ∧ gridGet hexgrid (r + 1) c = EMPTY_TILE then [Dir.SE] else []) ++
    (if r < size - 1 ∧ 0 < c ∧ gridGet hexgrid (r + 1) (c - 1) = EMPTY_TILE then [Dir.SW] else [])
  else
    (if 0 < r ∧ c < size - 1 ∧ gridGet hexgrid (r - 1) (c + 1) = EMPTY_TILE then [Dir.NE] else []) ++
    (if 0 < r ∧ 0 ≤ c ∧ gridGet hexgrid (r - 1) c = EMPTY_TILE then [Dir.NW] else []) ++
    (if r < size - 1 ∧ c < size - 1 ∧ gridGet hexgrid (r + 1) (c + 1) = EMPTY_TILE then [Dir.SE] else []) ++
    (if r < size - 1 ∧ 0 < c ∧ gridGet hexgrid (r + 1) c = EMPTY_TILE then [Dir.SW] else []))

/-- `np.argwhere(game.hexgrid == EMPTY_TILE)`: the empty cells in row-major
order (the trapper's candidate moves). -/
def empty_tiles (g : CatTrapGame) : List (Int × Int) :=
  (List.range g.size).flatMap fun r =>
    (List.range g.size).filterMap fun c =>
      if gridGet g.hexgrid r c = EMPTY_TILE then some ((r : Int), (c : Int)) else none

/-- `CatTrapGame.block_tile`. -/
def block_tile (g : CatTrapGame) (r c : Int) : CatTrapGame :=
  { g with hexgrid := gridSet g.hexgrid r c BLOCKED_TILE }

/-- `CatTrapGame.unblock_tile`. -/
def unblock_tile (g : CatTrapGame) (r c : Int) : CatTrapGame :=
  { g with hexgrid := gridSet g.hexgrid r c EMPTY_TILE }

/-- `CatTrapGame.place_cat`. -/
def place_cat (g : CatTrapGame) (r c : Int) : CatTrapGame :=
  { g with hexgrid := gridSet g.hexgrid r c CAT_TILE, cat_row := r, cat_col := c }

/-- `CatTrapGame.move_cat`: clear the previous cat position, then place. -/
def move_cat (g : CatTrapGame) (r c : Int) : CatTrapGame :=
  place_cat { g with hexgrid := gridSet g.hexgrid g.cat_row g.cat_col EMPTY_TILE } r c

/-- The success path of `CatTrapGame.apply_move` (the mutation performed once
the `InvalidMove` guard has passed), in the source's write order. -/
def apply_move_unchecked (g : CatTrapGame) (move : Int × Int) (maximizing_player : Bool) :
    CatTrapGame :=
  if maximizing_player then
    { g with hexgrid := gridSet g.hexgrid move.1 move.2 BLOCKED_TILE }
  else
    { g with
      hexgrid := gridSet (gridSet g.hexgrid move.1 move.2 CAT_TILE) g.cat_row g.cat_col EMPTY_TILE,
      cat_row := move.1, cat_col := move.2 }

/-- `CatTrapGame.apply_move`: raises `InvalidMove` when the target cell is not
empty, otherwise blocks (trapper ply) or moves the cat (evader ply).  The
exception is embedded as `Except.error`. -/
def apply_move (g : CatTrapGame) (move : Int × Int) (maximizing_player : Bool) :
    Except String CatTrapGame :=
  if gridGet g.hexgrid move.1 move.2 ≠ EMPTY_TILE then .error "Invalid Move!"
  else .ok (apply_move_unchecked g move maximizing_player)

/-! ## The proximity evaluator -/

/-- The inner `while True` walk of `CatEvaluationFunction.score_proximity`:
step in the fixed direction `d`, counting steps, until the walk leaves the
grid (return the count) or lands on a non-empty cell (return count × 5).
`fuel` bounds the loop; `walk_fuel` below always suffices when the walk starts
on the grid, because every direction moves one coordinate monotonically. -/
def walkAux (g : CatTrapGame) (d : Dir) : Nat → Int → Int → Int → Int
  | 0, dist, _, _ => dist
  | fuel + 1, dist, r, c =>
    let dist := dist + 1
    let rc := get_target_position r c d
    if rc.1 < 0 ∨ (g.size : Int) ≤ rc.1 ∨ rc.2 < 0 ∨ (g.size : Int) ≤ rc.2 then dist
    else if gridGet g.hexgrid rc.1 rc.2 ≠ EMPTY_TILE then dist * 5
    else walkAux g d fuel dist rc.1 rc.2

def walk_fuel (g : CatTrapGame) : Nat := g.size + 1

/-- The escape distance `score_proximity` records for one available direction. -/
def walkDistance (g : CatTrapGame) (d : Dir) : Int :=
  walkAux g d (walk_fuel g) 0 g.cat_row g.cat_col

/-- `CatEvaluationFunction.score_proximity`: two sentinel distances of 100,
one walk distance per currently valid direction, sorted ascending; the score
is `2·size` minus the smallest distance on the evader's (maximizing) ply and
minus the second smallest otherwise. -/
def score_proximity (g : CatTrapGame) (maximizing_player_turn : Bool) : Int :=
  let distances : List Int := [100, 100] ++ (get_valid_moves g).map (walkDistance g)
  let sorted := distances.insertionSort (· ≤ ·)
  (g.size : Int) * 2 - (if maximizing_player_turn then sorted.getD 0 0 else sorted.getD 1 0)

/-- The boundary-escape test `cat_row == 0 or cat_row == size-1 or
cat_col == 0 or cat_col == size-1` shared by `utility` and the min nodes. -/
def on_boundary (g : CatTrapGame) : Prop :=
  g.cat_row = 0 ∨ g.cat_row = (g.size : Int) - 1 ∨ g.cat_col = 0 ∨ g.cat_col = (g.size : Int) - 1

instance (g : CatTrapGame) : Decidable (on_boundary g) := by
  unfold on_boundary; infer_instance

/-- `CatTrapGame.utility` (with the source's `evaluation_function =
'proximity'` constant folded in). -/
def utility (g : CatTrapGame) (num_moves : Nat) (maximizing_player : Bool) : Int :=
  if on_boundary g then 100
  else if num_moves = 0 then -100
  else score_proximity g maximizing_player

/-! ## Search values and the deadline model -/

/-- Search values: Python floats restricted to the values the engine actually
produces (integers and the two infinities used as initial bests / root
alpha-beta window). -/
abbrev V := WithBot (WithTop Int)

/-- The finite value `z`. -/
def iv (z : Int) : V := ((z : WithTop Int) : V)

/-- The deadline oracle: `clock t = true` iff the `t`-th evaluation of
`self.time_left() < LAST_CALL_MS` comes back below the reserve. -/
abbrev Clock := Nat → Bool

/-- The mutable search bookkeeping the source keeps on the root object:
the poll counter (implicit in real time), and the `terminated` and
`reached_max_depth` flags. -/
structure SState where
  tick : Nat
  terminated : Bool
  reached_max_depth : Bool
deriving Repr, DecidableEq

/-- One deadline poll: consume a tick; if the oracle fires, set
`terminated`. -/
def timePoll (clock : Clock) (st : SState) : Bool × SState :=
  if clock st.tick then (true, { st with tick := st.tick + 1, terminated := true })
  else (false, { st with tick := st.tick + 1 })

/-- The weighted leaf value `(game.size**2 - depth) * game.utility(...)`. -/
def leafVal (g : CatTrapGame) (num_moves : Nat) (mp : Bool) (depth : Nat) : V :=
  iv (((g.size : Int) ^ 2 - (depth : Int)) * utility g num_moves mp)

/-- The sentinel no-move coordinate `[-1, -1]`. -/
def noMove : Int × Int := (-1, -1)

/-- The role-flip-and-apply performed at the entry of `max_value` /
`alpha_beta_max_value`: the root call (`move == [-1,-1]`) skips it. -/
def phaseMax (g : CatTrapGame) (move : Int × Int) (mp : Bool) : CatTrapGame × Bool :=
  if move = noMove then (g, mp) else (apply_move_unchecked g move (!mp), !mp)

/-! ## The timed search drivers

Each node polls the deadline oracle on entry (`self.time_left() <
LAST_CALL_MS`), then flips the role and applies the proposed move to its own
copy of the board, exactly as the source does.  The sibling loops are factored
out as list recursions over the candidate moves, parameterised by the child
call, mirroring the `for` loops of the source. -/

/-- The sibling loop of `max_value`: try each direction, keep the strictly
better value, abort with the sentinel as soon as `terminated` is observed. -/
def maxLoop (child : (Int × Int) → SState → V × SState) (game : CatTrapGame) :
    List Dir → V → (Int × Int) → SState → ((Int × Int) × V) × SState
  | [], best_value, best_move, st => ((best_move, best_value), st)
  | d :: rest, best_value, best_move, st =>
    let target_pos := get_target_position game.cat_row game.cat_col d
    let vs := child target_pos st
    if vs.2.terminated then ((noMove, iv 0), vs.2)
    else
      maxLoop child game rest (if best_value < vs.1 then vs.1 else best_value)
        (if best_value < vs.1 then target_pos else best_move) vs.2

/-- The sibling loop of `min_value`: try each empty tile, keep the minimum,
abort with the neutral value as soon as `terminated` is observed. -/
def minLoop (child : (Int × Int) → SState → ((Int × Int) × V) × SState) :
    List (Int × Int) → V → SState → V × SState
  | [], best_value, st => (best_value, st)
  | m :: rest, best_value, st =>
    let vs := child m st
    let bv := if best_value ≤ vs.1.2 then best_value else vs.1.2
    if vs.2.terminated then (iv 0, vs.2)
    else minLoop child rest bv vs.2

/-- The sibling loop of `alpha_beta_max_value`: as `maxLoop`, plus the beta
cutoff and the alpha update. -/
def abMaxLoop (child : (Int × Int) → V → V → SState → V × SState) (game : CatTrapGame)
    (beta : V) :
    List Dir → V → (Int × Int) → V → SState → ((Int × Int) × V) × SState
  | [], best_value, best_move, _alpha, st => ((best_move, best_value), st)
  | d :: rest, best_value, best_move, alpha, st =>
    let target_pos := get_target_position game.cat_row game.cat_col d
    let vs := child target_pos alpha beta st
    if vs.2.terminated then ((noMove, iv 0), vs.2)
    else
      let bv := if best_value < vs.1 then vs.1 else best_value
      let bm := if best_value < vs.1 then target_pos else best_move
      if beta ≤ bv then ((bm, bv), vs.2)
      else abMaxLoop child game beta rest bv bm (if alpha ≤ bv then bv else alpha) vs.2

/-- The sibling loop of `alpha_beta_min_value`: as `minLoop`, plus the alpha
cutoff and the beta update. -/
def abMinLoop (child : (Int × Int) → V → V → SState → ((Int × Int) × V) × SState)
    (alpha : V) :
    List (Int × Int) → V → V → SState → V × SState
  | [], best_value, _beta, st => (best_value, st)
  | m :: rest, best_value, beta, st =>
    let vs := child m alpha beta st
    let bv := if best_value ≤ vs.1.2 then best_value else vs.1.2
    if vs.2.terminated then (iv 0, vs.2)
    else if bv ≤ alpha then (bv, vs.2)
    else abMinLoop child alpha rest bv (if beta ≤ bv then beta else bv) vs.2

mutual

/-- `CatTrapGame.max_value`.  `rootCat` is the cat position of the root object
`self`, which the source returns as the move of a leaf. -/
def max_value (clock : Clock) (md : Option Nat) (rootCat : Int × Int) (fuel : Nat)
    (upper_game : CatTrapGame) (move : Int × Int) (mp0 : Bool) (depth : Nat)
    (st : SState) : ((Int × Int) × V) × SState :=
  match fuel with
  | 0 => ((noMove, iv 0), st)
  | fuel + 1 =>
    if clock st.tick then ((noMove, iv 0), { st with tick := st.tick + 1, terminated := true })
    else
      let st := { st with tick := st.tick + 1 }
      let gm := phaseMax upper_game move mp0
      let game := gm.1
      let mp := gm.2
      let legal_moves := get_valid_moves game
      if legal_moves = [] ∨ md = some depth then
        let st := if md = some depth then { st with reached_max_depth := true } else st
        ((rootCat, leafVal game legal_moves.length mp depth), st)
      else
        maxLoop (fun m st => min_value clock md rootCat fuel game m mp (depth + 1) st) game
          legal_moves ⊥
          (get_target_position game.cat_row game.cat_col (legal_moves.headD Dir.E)) st

/-- `CatTrapGame.min_value`. -/
def min_value (clock : Clock) (md : Option Nat) (rootCat : Int × Int) (fuel : Nat)
    (upper_game : CatTrapGame) (move : Int × Int) (mp0 : Bool) (depth : Nat)
    (st : SState) : V × SState :=
  match fuel with
  | 0 => (iv 0, st)
  | fuel + 1 =>
    if clock st.tick then (iv 0, { st with tick := st.tick + 1, terminated := true })
    else
      let st := { st with tick := st.tick + 1 }
      let mp := !mp0
      let game := apply_move_unchecked upper_game move mp
      if md = some depth ∨ on_boundary game then
        let st := if md = some depth then { st with reached_max_depth := true } else st
        (leafVal game 1 mp depth, st)
      else
        minLoop (fun m st => max_value clock md rootCat fuel game m mp (depth + 1) st)
          (empty_tiles game) ⊤ st

end

mutual

/-- `CatTrapGame.alpha_beta_max_value`. -/
def alpha_beta_max_value (clock : Clock) (md : Option Nat) (rootCat : Int × Int) (fuel : Nat)
    (upper_game : CatTrapGame) (move : Int × Int) (alpha beta : V) (mp0 : Bool) (depth : Nat)
    (st : SState) : ((Int × Int) × V) × SState :=
  match fuel with
  | 0 => ((noMove, iv 0), st)
  | fuel + 1 =>
    if clock st.tick then ((noMove, iv 0), { st with tick := st.tick + 1, terminated := true })
    else
      let st := { st with tick := st.tick + 1 }
      let gm := phaseMax upper_game move mp0
      let game := gm.1
      let mp := gm.2
      let legal_moves := get_valid_moves game
      if legal_moves = [] ∨ md = some depth then
        let st := if md = some depth then { st with reached_max_depth := true } else st
        ((rootCat, leafVal game legal_moves.length mp depth), st)
      else
        abMaxLoop
          (fun m a b st => alpha_beta_min_value clock md rootCat fuel game m a b mp (depth + 1) st)
          game beta legal_moves ⊥
          (get_target_position game.cat_row game.cat_col (legal_moves.headD Dir.E)) alpha st

/-- `CatTrapGame.alpha_beta_min_value`. -/
def alpha_beta_min_value (clock : Clock) (md : Option Nat) (rootCat : Int × Int) (fuel : Nat)
    (upper_game : CatTrapGame) (move : Int × Int) (alpha beta : V) (mp0 : Bool) (depth : Nat)
    (st : SState) : V × SState :=
  match fuel with
  | 0 => (iv 0, st)
  | fuel + 1 =>
    if clock st.tick then (iv 0, { st with tick := st.tick + 1, terminated := true })
    else
      let st := { st with tick := st.tick + 1 }
      let mp := !mp0
      let game := apply_move_unchecked upper_game move mp
      if md = some depth ∨ on_boundary game then
        let st := if md = some depth then { st with reached_max_depth := true } else st
        (leafVal game 1 mp depth, st)
      else
        abMinLoop
          (fun m a b st => alpha_beta_max_value clock md rootCat fuel game m a b mp (depth + 1) st)
          alpha (empty_tiles game) ⊤ beta st

end

/-- `CatTrapGame.minimax` (the top-level driver). -/
def minimax (clock : Clock) (fuel : Nat) (md : Option Nat) (g : CatTrapGame) (mp : Bool)
    (st : SState) : ((Int × Int) × V) × SState :=
  max_value clock md (g.cat_row, g.cat_col) fuel g noMove mp 0 st

/-- `CatTrapGame.alpha_beta` (the top-level driver, with the default
`alpha = -inf`, `beta = inf` window). -/
def alpha_beta (clock : Clock) (fuel : Nat) (md : Option Nat) (g : CatTrapGame) (mp : Bool)
    (st : SState) : ((Int × Int) × V) × SState :=
  alpha_beta_max_value clock md (g.cat_row, g.cat_col) fuel g noMove ⊥ ⊤ mp 0 st

/-- The `for depth in range(1, size**2)` loop of
`CatTrapGame.iterative_deepening`, carrying `output_move` and `utility`. -/
def idLoop (clock : Clock) (fuel : Nat) (use_alpha_beta : Bool) (g : CatTrapGame) :
    List Nat → (Int × Int) → V → SState → ((Int × Int) × V) × SState
  | [], output_move, ut, st => ((output_move, ut), st)
  | depth :: rest, output_move, _ut, st =>
    let st := { st with reached_max_depth := false }
    let r := if use_alpha_beta then alpha_beta clock fuel (some depth) g true st
             else minimax clock fuel (some depth) g true st
    if r.2.terminated then ((output_move, r.1.2), r.2)
    else if !r.2.reached_max_depth then (r.1, r.2)
    else idLoop clock fuel use_alpha_beta g rest r.1.1 r.1.2 r.2

/-- `CatTrapGame.iterative_deepening`. -/
def iterative_deepening (clock : Clock) (fuel : Nat) (use_alpha_beta : Bool)
    (g : CatTrapGame) (st : SState) : ((Int × Int) × V) × SState :=
  idLoop clock fuel use_alpha_beta g (List.range' 1 (g.size ^ 2 - 1))
    (g.cat_row, g.cat_col) (iv 0) st

/-- `CatTrapGame.random_cat_move`, with `random.choice` abstracted into a
selector `pick` (only consulted when the move list is non-empty).  The Python
method mutates nothing, so it is embedded as a pure position. -/
def random_cat_move (g : CatTrapGame) (pick : List Dir → Dir) : Int × Int :=
  let moves := get_valid_moves g
  match moves with
  | [] => (g.cat_row, g.cat_col)
  | _ :: _ => get_target_position g.cat_row g.cat_col (pick moves)

/-! ## Example boards used by witnesses and counterexamples -/

/-- A 3×3 board, cat centred, everything else empty. -/
def board3 : CatTrapGame :=
  { size := 3, hexgrid := [[0, 0, 0], [0, 6, 0], [0, 0, 0]], cat_row := 1, cat_col := 1 }

/-- A 3×3 board whose centred cat is completely walled in. -/
def board3Walled : CatTrapGame :=
  { size := 3, hexgrid := [[0, 1, 1], [1, 6, 1], [0, 1, 1]], cat_row := 1, cat_col := 1 }

/-- The clean initial search state. -/
def st0 : SState := { tick := 0, terminated := false, reached_max_depth := false }

/-- A deadline oracle that never fires. -/
def neverClock : Clock := fun _ => false

/-! ## Small helper lemmas -/

theorem mem_ite_singleton {α : Type} [DecidableEq α] (a b : α) (p : Prop) [Decidable p] :
    (a ∈ if p then [b] else []) ↔ p ∧ a = b := by
  split_ifs with h <;> simp_all

/-! ## C10: `random_cat_move` with no valid moves stays in place -/

/-- C10: whenever `get_valid_moves()` returns the empty list,
`random_cat_move()` returns the cat's current coordinates `[cat_row, cat_col]`
rather than failing.  (The Python method never writes to the board, which the
embedding reflects by being a pure function of the game.) -/
theorem C10_random_stays_put (g : CatTrapGame) (pick : List Dir → Dir)
    (h : get_valid_moves g = []) :
    random_cat_move g pick = (g.cat_row, g.cat_col) := by
  unfold random_cat_move
  rw [h]

theorem C10_witness :
    random_cat_move board3Walled (fun _ => Dir.E) = (1, 1) :=
  C10_random_stays_put board3Walled (fun _ => Dir.E) (by decide)


/-! ## C4: move generation and the odd-row offset table

The target table is exactly as claimed.  The membership property, however,
fails in one corner: on an odd row with `cat_col = 0`, the source guards SW
with `c > 0` although the SW target is `(r+1, c)`, which is in bounds for
`c = 0`; an empty tile straight below-left of such a cat is never offered.
The claim is therefore settled as corrected, with that single exception added
to the otherwise-proved equivalence. -/

/-- A 3×3 board whose cat sits at `(1, 0)`: odd row, column 0.  The SW
neighbour `(2, 0)` is empty and in bounds, yet `get_valid_moves` omits SW. -/
def board3SW : CatTrapGame :=
  { size := 3, hexgrid := [[0, 0, 0], [6, 0, 0], [0, 0, 0]], cat_row := 1, cat_col := 0 }

/-- C4 counterexample: at `board3SW` the cat is in bounds, the SW neighbour
given by the offset table is in bounds and empty, but SW is not in
`get_valid_moves()` — the claimed equivalence is false as stated. -/
theorem C4_counterexample :
    0 ≤ board3SW.cat_row ∧ board3SW.cat_row < (board3SW.size : Int) ∧
    0 ≤ board3SW.cat_col ∧ board3SW.cat_col < (board3SW.size : Int) ∧
    ¬ (Dir.SW ∈ get_valid_moves board3SW ↔
        0 ≤ (get_target_position board3SW.cat_row board3SW.cat_col Dir.SW).1 ∧
        (get_target_position board3SW.cat_row board3SW.cat_col Dir.SW).1 < (board3SW.size : Int) ∧
        0 ≤ (get_target_position board3SW.cat_row board3SW.cat_col Dir.SW).2 ∧
        (get_target_position board3SW.cat_row board3SW.cat_col Dir.SW).2 < (board3SW.size : Int) ∧
        gridGet board3SW.hexgrid
          (get_target_position board3SW.cat_row board3SW.cat_col Dir.SW).1
          (get_target_position board3SW.cat_row board3SW.cat_col Dir.SW).2 = EMPTY_TILE) := by
  decide

/-- C4 (amended): `get_target_position` implements exactly the odd-row offset
table (E=(r,c+1), W=(r,c-1); even r: NE=(r−1,c), NW=(r−1,c−1), SE=(r+1,c),
SW=(r+1,c−1); odd r: NE=(r−1,c+1), NW=(r−1,c), SE=(r+1,c+1), SW=(r+1,c)).
For an in-bounds cat position, a direction is in `get_valid_moves()` iff the
table's neighbour is in bounds and empty — except that SW is additionally
required to satisfy `cat_col > 0` even on odd rows, where its target stays in
column `cat_col`; so SW is never offered from column 0 of an odd row. -/
theorem C4_moves_and_targets :
    (∀ r c : Int,
      get_target_position r c Dir.E = (r, c + 1) ∧
      get_target_position r c Dir.W = (r, c - 1) ∧
      (r % 2 = 0 →
        get_target_position r c Dir.NE = (r - 1, c) ∧
        get_target_position r c Dir.NW = (r - 1, c - 1) ∧
        get_target_position r c Dir.SE = (r + 1, c) ∧
        get_target_position r c Dir.SW = (r + 1, c - 1)) ∧
      (r % 2 ≠ 0 →
        get_target_position r c Dir.NE = (r - 1, c + 1) ∧
        get_target_position r c Dir.NW = (r - 1, c) ∧
        get_target_position r c Dir.SE = (r + 1, c + 1) ∧
        get_target_position r c Dir.SW = (r + 1, c))) ∧
    (∀ (g : CatTrapGame) (d : Dir),
      0 ≤ g.cat_row → g.cat_row < (g.size : Int) →
      0 ≤ g.cat_col → g.cat_col < (g.size : Int) →
      (d ∈ get_valid_moves g ↔
        0 ≤ (get_target_position g.cat_row g.cat_col d).1 ∧
        (get_target_position g.cat_row g.cat_col d).1 < (g.size : Int) ∧
        0 ≤ (get_target_position g.cat_row g.cat_col d).2 ∧
        (get_target_position g.cat_row g.cat_col d).2 < (g.size : Int) ∧
        gridGet g.hexgrid (get_target_position g.cat_row g.cat_col d).1
          (get_target_position g.cat_row g.cat_col d).2 = EMPTY_TILE ∧
        (d = Dir.SW → g.cat_row % 2 = 0 ∨ 0 < g.cat_col))) := by
  constructor
  · intro r c
    refine ⟨rfl, rfl, fun h => ?_, fun h => ?_⟩
    · simp [get_target_position, h]
    · simp [get_target_position, h]
  · intro g d h1 h2 h3 h4
    by_cases hp : g.cat_row % 2 = 0
    · cases d <;>
        simp only [get_valid_moves, List.mem_append, mem_ite_singleton, if_pos hp,
          get_target_position, and_true, and_false, or_false, false_or, reduceCtorEq]
      case pos.E => exact ⟨fun h => ⟨h1, h2, by omega, by omega, h.2,
          fun hh => absurd hh (by decide)⟩,
        fun h => ⟨by omega, h.2.2.2.2.1⟩⟩
      case pos.W => exact ⟨fun h => ⟨h1, h2, by omega, by omega, h.2,
          fun hh => absurd hh (by decide)⟩,
        fun h => ⟨by omega, h.2.2.2.2.1⟩⟩
      case pos.NE => exact ⟨fun h => ⟨by omega, by omega, h3, h4, h.2.2,
          fun hh => absurd hh (by decide)⟩,
        fun h => ⟨by omega, by omega, h.2.2.2.2.1⟩⟩
      case pos.NW => exact ⟨fun h => ⟨by omega, by omega, by omega, by omega, h.2.2,
          fun hh => absurd hh (by decide)⟩,
        fun h => ⟨by omega, by omega, h.2.2.2.2.1⟩⟩
      case pos.SE => exact ⟨fun h => ⟨by omega, by omega, h3, h4, h.2.2,
          fun hh => absurd hh (by decide)⟩,
        fun h => ⟨by omega, by omega, h.2.2.2.2.1⟩⟩
      case pos.SW => exact ⟨fun h => ⟨by omega, by omega, by omega, by omega, h.2.2,
          fun _ => Or.inl hp⟩,
        fun h => ⟨by omega, by omega, h.2.2.2.2.1⟩⟩
    · cases d <;>
        simp only [get_valid_moves, List.mem_append, mem_ite_singleton, if_neg hp,
          get_target_position, and_true, and_false, or_false, false_or, reduceCtorEq]
      case neg.E => exact ⟨fun h => ⟨h1, h2, by omega, by omega, h.2,
          fun hh => absurd hh (by decide)⟩,
        fun h => ⟨by omega, h.2.2.2.2.1⟩⟩
      case neg.W => exact ⟨fun h => ⟨h1, h2, by omega, by omega, h.2,
          fun hh => absurd hh (by decide)⟩,
        fun h => ⟨by omega, h.2.2.2.2.1⟩⟩
      case neg.NE => exact ⟨fun h => ⟨by omega, by omega, by omega, by omega, h.2.2,
          fun hh => absurd hh (by decide)⟩,
        fun h => ⟨by omega, by omega, h.2.2.2.2.1⟩⟩
      case neg.NW => exact ⟨fun h => ⟨by omega, by omega, by omega, by omega, h.2.2,
          fun hh => absurd hh (by decide)⟩,
        fun h => ⟨by omega, by omega, h.2.2.2.2.1⟩⟩
      case neg.SE => exact ⟨fun h => ⟨by omega, by omega, by omega, by omega, h.2.2,
          fun hh => absurd hh (by decide)⟩,
        fun h => ⟨by omega, by omega, h.2.2.2.2.1⟩⟩
      case neg.SW => exact ⟨fun h => ⟨by omega, by omega, by omega, by omega, h.2.2,
          fun _ => Or.inr h.2.1⟩,
        fun h => ⟨by omega, (h.2.2.2.2.2 trivial).resolve_left hp, h.2.2.2.2.1⟩⟩

theorem C4_witness :
    Dir.NE ∈ get_valid_moves board3 ↔
      0 ≤ (get_target_position board3.cat_row board3.cat_col Dir.NE).1 ∧
      (get_target_position board3.cat_row board3.cat_col Dir.NE).1 < (board3.size : Int) ∧
      0 ≤ (get_target_position board3.cat_row board3.cat_col Dir.NE).2 ∧
      (get_target_position board3.cat_row board3.cat_col Dir.NE).2 < (board3.size : Int) ∧
      gridGet board3.hexgrid (get_target_position board3.cat_row board3.cat_col Dir.NE).1
        (get_target_position board3.cat_row board3.cat_col Dir.NE).2 = EMPTY_TILE ∧
      (Dir.NE = Dir.SW → board3.cat_row % 2 = 0 ∨ 0 < board3.cat_col) :=
  C4_moves_and_targets.2 board3 Dir.NE (by decide) (by decide) (by decide) (by decide)

/-! ## Grid well-formedness and cell-level lemmas -/

/-- Coordinate validity: within `[0, size)` in both components (spec §3). -/
def inB (g : CatTrapGame) (r c : Int) : Prop :=
  0 ≤ r ∧ r < (g.size : Int) ∧ 0 ≤ c ∧ c < (g.size : Int)

instance (g : CatTrapGame) (r c : Int) : Decidable (inB g r c) := by
  unfold inB; infer_instance

/-- The grid really is `size × size` (always true of grids the source
constructs). -/
def WFGrid (g : CatTrapGame) : Prop :=
  g.hexgrid.length = g.size ∧ ∀ row ∈ g.hexgrid, row.length = g.size

instance (g : CatTrapGame) : Decidable (WFGrid g) := by
  unfold WFGrid; exact instDecidableAnd

theorem getD_set_self {α : Type} (l : List α) (i : Nat) (v d : α) (h : i < l.length) :
    (l.set i v).getD i d = v := by
  simp [List.getD, List.getElem?_set_self, h]

theorem getD_set_ne {α : Type} (l : List α) (i j : Nat) (v d : α) (h : i ≠ j) :
    (l.set i v).getD j d = l.getD j d := by
  simp [List.getD, List.getElem?_set_ne, h]

theorem rowLength_getD (g : CatTrapGame) (hwf : WFGrid g) (i : Nat) (h : i < g.size) :
    (g.hexgrid.getD i []).length = g.size := by
  have hl : i < g.hexgrid.length := by rw [hwf.1]; exact h
  rw [List.getD_eq_getElem _ _ hl]
  exact hwf.2 _ (List.getElem_mem hl)

theorem gridGet_gridSet_self (G : Grid) (r c : Int) (v : Nat)
    (hr : r.toNat < G.length) (hc : c.toNat < (G.getD r.toNat []).length) :
    gridGet (gridSet G r c v) r c = v := by
  unfold gridGet gridSet
  rw [getD_set_self _ _ _ _ hr, getD_set_self _ _ _ _ hc]

theorem gridGet_gridSet_ne (G : Grid) (r c r' c' : Int) (v : Nat)
    (h : r.toNat ≠ r'.toNat ∨ c.toNat ≠ c'.toNat) :
    gridGet (gridSet G r c v) r' c' = gridGet G r' c' := by
  unfold gridGet gridSet
  rcases h with h | h
  · rw [getD_set_ne _ _ _ _ _ h]
  · by_cases hrr : r.toNat = r'.toNat
    · rw [hrr]
      by_cases hrl : r'.toNat < G.length
      · rw [getD_set_self _ _ _ _ hrl, getD_set_ne _ _ _ _ _ h]
      · rw [List.set_eq_of_length_le (by omega)]
    · rw [getD_set_ne _ _ _ _ _ hrr]

theorem length_gridSet (G : Grid) (r c : Int) (v : Nat) :
    (gridSet G r c v).length = G.length := by
  unfold gridSet; simp

theorem WFGrid_gridSet (g : CatTrapGame) (g' : CatTrapGame) (r c : Int) (v : Nat)
    (hwf : WFGrid g) (hsz : g'.size = g.size) (hgr : g'.hexgrid = gridSet g.hexgrid r c v) :
    WFGrid g' := by
  constructor
  · rw [hgr, length_gridSet, hwf.1, hsz]
  · intro row hrow
    rw [hgr] at hrow
    unfold gridSet at hrow
    by_cases hrl : r.toNat < g.hexgrid.length
    · rcases List.mem_or_eq_of_mem_set hrow with h | h
      · rw [hsz]; exact hwf.2 _ h
      · subst h
        rw [List.length_set, hsz, List.getD_eq_getElem _ _ hrl]
        exact hwf.2 _ (List.getElem_mem hrl)
    · rw [List.set_eq_of_length_le (by omega)] at hrow
      rw [hsz]; exact hwf.2 _ hrow

/-- Number of occupied (cat) tiles on the grid. -/
def occCount (G : Grid) : Nat :=
  (G.map (fun row => row.countP (fun t => t == CAT_TILE))).sum

theorem countP_set_add {α : Type} (l : List α) (p : α → Bool) (i : Nat) (v : α)
    (h : i < l.length) :
    ((l.set i v).countP p) + (if p l[i] then 1 else 0) = l.countP p + (if p v then 1 else 0) := by
  induction l generalizing i with
  | nil => simp at h
  | cons a t ih =>
    cases i with
    | zero =>
      simp only [List.set, List.countP_cons, List.getElem_cons_zero]
      omega
    | succ n =>
      simp only [List.set, List.countP_cons, List.getElem_cons_succ]
      have := ih n (by simpa using h)
      omega

theorem sum_map_set {α : Type} (L : List α) (f : α → Nat) (i : Nat) (x : α)
    (h : i < L.length) :
    ((L.set i x).map f).sum + f L[i] = (L.map f).sum + f x := by
  induction L generalizing i with
  | nil => simp at h
  | cons a t ih =>
    cases i with
    | zero => simp only [List.set, List.map, List.sum_cons, List.getElem_cons_zero]; omega
    | succ n =>
      simp only [List.set, List.map, List.sum_cons, List.getElem_cons_succ]
      have := ih n (by simpa using h)
      omega

theorem occCount_gridSet (G : Grid) (r c : Int) (v : Nat)
    (hr : r.toNat < G.length) (hc : c.toNat < (G.getD r.toNat []).length) :
    occCount (gridSet G r c v) + (if gridGet G r c = CAT_TILE then 1 else 0)
      = occCount G + (if v = CAT_TILE then 1 else 0) := by
  unfold occCount gridSet gridGet
  have h1 := sum_map_set G (fun row => row.countP (fun t => t == CAT_TILE)) r.toNat
    ((G.getD r.toNat []).set c.toNat v) hr
  have h2 := countP_set_add (G.getD r.toNat []) (fun t => t == CAT_TILE) c.toNat v hc
  simp only [beq_iff_eq] at h1 h2
  simp only [List.getD_eq_getElem _ _ hc]
  simp only [List.getD_eq_getElem _ _ hr] at h1 h2 ⊢
  omega

theorem toNat_bounds (g : CatTrapGame) (hwf : WFGrid g) (r c : Int) (hin : inB g r c) :
    r.toNat < g.hexgrid.length ∧ c.toNat < (g.hexgrid.getD r.toNat []).length := by
  obtain ⟨h1, h2, h3, h4⟩ := hin
  have hr : r.toNat < g.size := by omega
  refine ⟨by rw [hwf.1]; exact hr, ?_⟩
  rw [rowLength_getD g hwf _ hr]
  omega

theorem cell_ne_toNat (r c r' c' : Int) (h0 : 0 ≤ r) (h0' : 0 ≤ c)
    (hr' : 0 ≤ r') (hc' : 0 ≤ c') (hne : (r, c) ≠ (r', c')) :
    r.toNat ≠ r'.toNat ∨ c.toNat ≠ c'.toNat := by
  simp only [ne_eq, Prod.mk.injEq, not_and_or] at hne
  rcases hne with h | h
  · exact Or.inl (by omega)
  · exact Or.inr (by omega)

/-! ## C7: the `apply_move` contract -/

/-- C7: `apply_move` raises `InvalidMove` iff the target tile is not empty.
On an empty target, a trapper ply (`maximizing_player = true`) blocks the
target and leaves the cached cat position (and every other cell) unchanged;
an evader ply occupies the target, empties the previously occupied tile,
updates the cached cat coordinate, and leaves every other cell unchanged. -/
theorem C7_apply_move (g : CatTrapGame) (move : Int × Int) (mp : Bool)
    (hwf : WFGrid g) (hin : inB g move.1 move.2)
    (hcatin : inB g g.cat_row g.cat_col)
    (hcat : gridGet g.hexgrid g.cat_row g.cat_col = CAT_TILE) :
    (apply_move g move mp = Except.error "Invalid Move!" ↔
      gridGet g.hexgrid move.1 move.2 ≠ EMPTY_TILE) ∧
    (gridGet g.hexgrid move.1 move.2 = EMPTY_TILE →
      apply_move g move mp = Except.ok (apply_move_unchecked g move mp) ∧
      ((apply_move_unchecked g move true).cat_row = g.cat_row ∧
       (apply_move_unchecked g move true).cat_col = g.cat_col ∧
       gridGet (apply_move_unchecked g move true).hexgrid move.1 move.2 = BLOCKED_TILE ∧
       (∀ r c : Int, 0 ≤ r → 0 ≤ c → (r, c) ≠ move →
         gridGet (apply_move_unchecked g move true).hexgrid r c = gridGet g.hexgrid r c)) ∧
      ((apply_move_unchecked g move false).cat_row = move.1 ∧
       (apply_move_unchecked g move false).cat_col = move.2 ∧
       gridGet (apply_move_unchecked g move false).hexgrid move.1 move.2 = CAT_TILE ∧
       gridGet (apply_move_unchecked g move false).hexgrid g.cat_row g.cat_col = EMPTY_TILE ∧
       (∀ r c : Int, 0 ≤ r → 0 ≤ c → (r, c) ≠ move → (r, c) ≠ (g.cat_row, g.cat_col) →
         gridGet (apply_move_unchecked g move false).hexgrid r c = gridGet g.hexgrid r c))) := by
  obtain ⟨hmr, hmc⟩ := toNat_bounds g hwf move.1 move.2 hin
  obtain ⟨hcr, hcc⟩ := toNat_bounds g hwf g.cat_row g.cat_col hcatin
  constructor
  · unfold apply_move
    split_ifs with h
    · exact iff_of_true rfl h
    · exact iff_of_false (by simp) h
  · intro hempty
    have hmovecat : (move.1, move.2) ≠ (g.cat_row, g.cat_col) := by
      intro hh
      rw [show move.1 = g.cat_row from congrArg Prod.fst hh,
        show move.2 = g.cat_col from congrArg Prod.snd hh] at hempty
      rw [hcat] at hempty
      simp [CAT_TILE, EMPTY_TILE] at hempty
    have hne1 : move.1.toNat ≠ g.cat_row.toNat ∨ move.2.toNat ≠ g.cat_col.toNat :=
      cell_ne_toNat _ _ _ _ hin.1 hin.2.2.1 hcatin.1 hcatin.2.2.1 hmovecat
    have hwfmid : WFGrid { g with hexgrid := gridSet g.hexgrid move.1 move.2 CAT_TILE } :=
      WFGrid_gridSet g _ move.1 move.2 CAT_TILE hwf rfl rfl
    have hmid := toNat_bounds _ hwfmid g.cat_row g.cat_col hcatin
    refine ⟨by unfold apply_move; rw [if_neg (by simpa using hempty)], ?_, ?_⟩
    · refine ⟨rfl, rfl, ?_, ?_⟩
      · exact gridGet_gridSet_self g.hexgrid move.1 move.2 BLOCKED_TILE hmr hmc
      · intro r c hr0 hc0 hne
        exact gridGet_gridSet_ne g.hexgrid move.1 move.2 r c BLOCKED_TILE
          (cell_ne_toNat move.1 move.2 r c hin.1 hin.2.2.1 hr0 hc0 (Ne.symm hne))
    · refine ⟨rfl, rfl, ?_, ?_, ?_⟩
      · exact (gridGet_gridSet_ne _ g.cat_row g.cat_col move.1 move.2 EMPTY_TILE
          (hne1.imp Ne.symm Ne.symm)).trans
          (gridGet_gridSet_self g.hexgrid move.1 move.2 CAT_TILE hmr hmc)
      · exact gridGet_gridSet_self _ g.cat_row g.cat_col EMPTY_TILE hmid.1 hmid.2
      · intro r c hr0 hc0 hne hnecat
        exact (gridGet_gridSet_ne _ g.cat_row g.cat_col r c EMPTY_TILE
          (cell_ne_toNat g.cat_row g.cat_col r c hcatin.1 hcatin.2.2.1 hr0 hc0
            (Ne.symm hnecat))).trans
          (gridGet_gridSet_ne g.hexgrid move.1 move.2 r c CAT_TILE
            (cell_ne_toNat move.1 move.2 r c hin.1 hin.2.2.1 hr0 hc0 (Ne.symm hne)))

theorem C7_witness :
    (apply_move board3 (0, 0) true = Except.error "Invalid Move!" ↔
      gridGet board3.hexgrid 0 0 ≠ EMPTY_TILE) ∧
    gridGet (apply_move_unchecked board3 (0, 0) true).hexgrid 0 0 = BLOCKED_TILE := by
  have h := C7_apply_move board3 (0, 0) true (by decide) (by decide) (by decide) (by decide)
  exact ⟨h.1, (h.2 (by decide)).2.1.2.2.1⟩

/-! ## C8: the single-occupancy invariant -/

theorem countP_ge_two {α : Type} (l : List α) (p : α → Bool) (i j : Nat)
    (hi : i < l.length) (hj : j < l.length) (hij : i ≠ j)
    (hpi : p (l.get ⟨i, hi⟩)) (hpj : p (l.get ⟨j, hj⟩)) : 2 ≤ l.countP p := by
  induction l generalizing i j with
  | nil => simp at hi
  | cons a t ih =>
    rw [List.countP_cons]
    simp only [List.length_cons] at hi hj
    cases i with
    | zero =>
      cases j with
      | zero => omega
      | succ n =>
        simp only [List.get] at hpi hpj
        have h1 : 0 < t.countP p :=
          List.countP_pos_iff.mpr ⟨_, t.get_mem _ _, hpj⟩
        rw [if_pos hpi]
        omega
    | succ m =>
      cases j with
      | zero =>
        simp only [List.get] at hpi hpj
        have h1 : 0 < t.countP p :=
          List.countP_pos_iff.mpr ⟨_, t.get_mem _ _, hpi⟩
        rw [if_pos hpj]
        omega
      | succ n =>
        simp only [List.get] at hpi hpj
        have := ih m n (by omega : m < t.length) (by omega : n < t.length) (by omega) hpi hpj
        omega

theorem getElem_pair_le_sum (l : List Nat) (i j : Nat)
    (hi : i < l.length) (hj : j < l.length) (hij : i ≠ j) :
    l.get ⟨i, hi⟩ + l.get ⟨j, hj⟩ ≤ l.sum := by
  induction l generalizing i j with
  | nil => simp at hi
  | cons a t ih =>
    rw [List.sum_cons]
    simp only [List.length_cons] at hi hj
    cases i with
    | zero =>
      cases j with
      | zero => omega
      | succ n =>
        simp only [List.get]
        have : t.get ⟨n, by omega⟩ ≤ t.sum :=
          List.single_le_sum (fun x _ => Nat.zero_le x) _ (t.get_mem _ _)
        omega
    | succ m =>
      cases j with
      | zero =>
        simp only [List.get]
        have : t.get ⟨m, by omega⟩ ≤ t.sum :=
          List.single_le_sum (fun x _ => Nat.zero_le x) _ (t.get_mem _ _)
        omega
      | succ n =>
        simp only [List.get]
        have := ih m n (by omega : m < t.length) (by omega : n < t.length) (by omega)
        omega

/-- Two distinct in-bounds cells cannot both hold the cat if the grid is to
have fewer than two occupied tiles. -/
theorem two_cats_le (G : Grid) (r c r' c' : Int)
    (hr : r.toNat < G.length) (hc : c.toNat < (G.getD r.toNat []).length)
    (hr' : r'.toNat < G.length) (hc' : c'.toNat < (G.getD r'.toNat []).length)
    (hne : r.toNat ≠ r'.toNat ∨ c.toNat ≠ c'.toNat)
    (h1 : gridGet G r c = CAT_TILE) (h2 : gridGet G r' c' = CAT_TILE) :
    2 ≤ occCount G := by
  unfold occCount
  unfold gridGet at h1 h2
  have hmemR : G.getD r.toNat [] ∈ G := by
    rw [List.getD_eq_getElem _ _ hr]; exact List.getElem_mem hr
  have hmemR' : G.getD r'.toNat [] ∈ G := by
    rw [List.getD_eq_getElem _ _ hr']; exact List.getElem_mem hr'
  have hp1 : (fun t => t == CAT_TILE) ((G.getD r.toNat []).get ⟨c.toNat, hc⟩) = true := by
    rw [List.get_eq_getElem, ← List.getD_eq_getElem (G.getD r.toNat []) EMPTY_TILE hc]
    simpa using h1
  have hp2 : (fun t => t == CAT_TILE) ((G.getD r'.toNat []).get ⟨c'.toNat, hc'⟩) = true := by
    rw [List.get_eq_getElem, ← List.getD_eq_getElem (G.getD r'.toNat []) EMPTY_TILE hc']
    simpa using h2
  by_cases hrr : r.toNat = r'.toNat
  · have hRR : G.getD r.toNat [] = G.getD r'.toNat [] := by rw [hrr]
    have hcc : c.toNat ≠ c'.toNat := by
      rcases hne with h | h
      · exact absurd hrr h
      · exact h
    have hc2 : c'.toNat < (G.getD r.toNat []).length := by rw [hRR]; exact hc'
    have hp2' : (fun t => t == CAT_TILE) ((G.getD r.toNat []).get ⟨c'.toNat, hc2⟩) = true := by
      rw [List.get_eq_getElem, ← List.getD_eq_getElem (G.getD r.toNat []) EMPTY_TILE hc2, hRR]
      simpa using h2
    have hrow := countP_ge_two (G.getD r.toNat []) (fun t => t == CAT_TILE)
      c.toNat c'.toNat hc hc2 hcc hp1 hp2'
    calc (2 : Nat) ≤ (G.getD r.toNat []).countP (fun t => t == CAT_TILE) := hrow
      _ ≤ ((G.map (fun row => row.countP (fun t => t == CAT_TILE))).sum) :=
          List.single_le_sum (fun x _ => Nat.zero_le x) _ (List.mem_map.mpr ⟨_, hmemR, rfl⟩)
  · have p1 : 0 < (G.getD r.toNat []).countP (fun t => t == CAT_TILE) :=
      List.countP_pos_iff.mpr ⟨_, List.get_mem _ _ _, hp1⟩
    have p2 : 0 < (G.getD r'.toNat []).countP (fun t => t == CAT_TILE) :=
      List.countP_pos_iff.mpr ⟨_, List.get_mem _ _ _, hp2⟩
    have hlen : (G.map (fun row => row.countP (fun t => t == CAT_TILE))).length = G.length := by
      simp
    have e1 : (G.map (fun row => row.countP (fun t => t == CAT_TILE))).get ⟨r.toNat, by omega⟩
        = (G.getD r.toNat []).countP (fun t => t == CAT_TILE) := by
      rw [List.get_eq_getElem]
      simp only [List.getElem_map]
      rw [List.getD_eq_getElem _ _ hr]
    have e2 : (G.map (fun row => row.countP (fun t => t == CAT_TILE))).get ⟨r'.toNat, by omega⟩
        = (G.getD r'.toNat []).countP (fun t => t == CAT_TILE) := by
      rw [List.get_eq_getElem]
      simp only [List.getElem_map]
      rw [List.getD_eq_getElem _ _ hr']
    have hpair := getElem_pair_le_sum (G.map (fun row => row.countP (fun t => t == CAT_TILE)))
      r.toNat r'.toNat (by omega) (by omega) hrr
    rw [e1, e2] at hpair
    omega

/-- The board-mutating operations C8 ranges over: a search/engine move
application (`apply_move`, either role), or the session-level `move_cat`. -/
inductive BoardOp where
  | apply (move : Int × Int) (maximizing_player : Bool)
  | move (r c : Int)
deriving Repr, DecidableEq

/-- Run one operation; a raised `InvalidMove` aborts the run. -/
def runOp (g : CatTrapGame) : BoardOp → Option CatTrapGame
  | .apply m mp => (apply_move g m mp).toOption
  | .move r c => some (move_cat g r c)

/-- Run a sequence of operations, stopping at the first failure. -/
def runOps (g : CatTrapGame) : List BoardOp → Option CatTrapGame
  | [] => some g
  | op :: rest =>
    match runOp g op with
    | none => none
    | some g' => runOps g' rest

/-- The operation's coordinates are in bounds for an `N`-sized board. -/
def opInBounds (N : Nat) : BoardOp → Prop
  | .apply m _ => 0 ≤ m.1 ∧ m.1 < (N : Int) ∧ 0 ≤ m.2 ∧ m.2 < (N : Int)
  | .move r c => 0 ≤ r ∧ r < (N : Int) ∧ 0 ≤ c ∧ c < (N : Int)

instance (N : Nat) (op : BoardOp) : Decidable (opInBounds N op) := by
  cases op <;> (unfold opInBounds; infer_instance)

/-- "Exactly one occupied tile and it is the cached one": the cached cat
coordinate is in bounds, the grid holds exactly one occupied cell, and the
cached cell is occupied. -/
def occInv (g : CatTrapGame) : Prop :=
  inB g g.cat_row g.cat_col ∧ occCount g.hexgrid = 1 ∧
  gridGet g.hexgrid g.cat_row g.cat_col = CAT_TILE

instance (g : CatTrapGame) : Decidable (occInv g) := by
  unfold occInv; infer_instance

theorem occInv_apply_move (g : CatTrapGame) (m : Int × Int) (mp : Bool) (g' : CatTrapGame)
    (hwf : WFGrid g) (hin : inB g m.1 m.2) (hinv : occInv g)
    (h : apply_move g m mp = Except.ok g') :
    occInv g' ∧ WFGrid g' ∧ g'.size = g.size := by
  obtain ⟨hcatin, hocc, hcat⟩ := hinv
  obtain ⟨hmr, hmc⟩ := toNat_bounds g hwf m.1 m.2 hin
  obtain ⟨hcr, hcc⟩ := toNat_bounds g hwf g.cat_row g.cat_col hcatin
  rw [apply_move.eq_def] at h
  split at h
  case isTrue hguard => exact absurd h (by simp)
  case isFalse hguard =>
    have hempty : gridGet g.hexgrid m.1 m.2 = EMPTY_TILE := by
      by_contra hh; exact hguard hh
    injection h with hh
    subst hh
    have hmovecat : (m.1, m.2) ≠ (g.cat_row, g.cat_col) := by
      intro hh
      rw [show m.1 = g.cat_row from congrArg Prod.fst hh,
        show m.2 = g.cat_col from congrArg Prod.snd hh, hcat] at hempty
      simp [CAT_TILE, EMPTY_TILE] at hempty
    have hne1 : m.1.toNat ≠ g.cat_row.toNat ∨ m.2.toNat ≠ g.cat_col.toNat :=
      cell_ne_toNat _ _ _ _ hin.1 hin.2.2.1 hcatin.1 hcatin.2.2.1 hmovecat
    cases mp with
    | true =>
      have hcount := occCount_gridSet g.hexgrid m.1 m.2 BLOCKED_TILE hmr hmc
      rw [hempty] at hcount
      refine ⟨⟨hcatin, ?_, ?_⟩, ?_, rfl⟩
      · show occCount (gridSet g.hexgrid m.1 m.2 BLOCKED_TILE) = 1
        simp [EMPTY_TILE, CAT_TILE, BLOCKED_TILE] at hcount ⊢
        omega
      · show gridGet (gridSet g.hexgrid m.1 m.2 BLOCKED_TILE) g.cat_row g.cat_col = CAT_TILE
        rw [gridGet_gridSet_ne _ _ _ _ _ _ hne1]
        exact hcat
      · exact WFGrid_gridSet g _ m.1 m.2 BLOCKED_TILE hwf rfl rfl
    | false =>
      have hwfmid : WFGrid { g with hexgrid := gridSet g.hexgrid m.1 m.2 CAT_TILE } :=
        WFGrid_gridSet g _ m.1 m.2 CAT_TILE hwf rfl rfl
      obtain ⟨hcr2, hcc2⟩ := toNat_bounds _ hwfmid g.cat_row g.cat_col hcatin
      have hcount1 := occCount_gridSet g.hexgrid m.1 m.2 CAT_TILE hmr hmc
      rw [hempty] at hcount1
      have hcount2 := occCount_gridSet (gridSet g.hexgrid m.1 m.2 CAT_TILE)
        g.cat_row g.cat_col EMPTY_TILE hcr2 hcc2
      have hmidcat : gridGet (gridSet g.hexgrid m.1 m.2 CAT_TILE) g.cat_row g.cat_col
          = CAT_TILE := by
        rw [gridGet_gridSet_ne _ _ _ _ _ _ hne1]; exact hcat
      rw [hmidcat] at hcount2
      refine ⟨⟨hin, ?_, ?_⟩, ?_, rfl⟩
      · show occCount (gridSet (gridSet g.hexgrid m.1 m.2 CAT_TILE)
          g.cat_row g.cat_col EMPTY_TILE) = 1
        simp [EMPTY_TILE, CAT_TILE] at hcount1 hcount2 ⊢
        omega
      · show gridGet (gridSet (gridSet g.hexgrid m.1 m.2 CAT_TILE)
          g.cat_row g.cat_col EMPTY_TILE) m.1 m.2 = CAT_TILE
        rw [gridGet_gridSet_ne _ _ _ _ _ _ (hne1.imp Ne.symm Ne.symm)]
        exact gridGet_gridSet_self g.hexgrid m.1 m.2 CAT_TILE hmr hmc
      · exact WFGrid_gridSet { g with hexgrid := gridSet g.hexgrid m.1 m.2 CAT_TILE }
          _ g.cat_row g.cat_col EMPTY_TILE hwfmid rfl rfl

theorem gridGet_congr_toNat (G : Grid) (r c r' c' : Int)
    (h1 : r.toNat = r'.toNat) (h2 : c.toNat = c'.toNat) :
    gridGet G r c = gridGet G r' c' := by
  unfold gridGet; rw [h1, h2]

theorem occInv_move_cat (g : CatTrapGame) (r c : Int)
    (hwf : WFGrid g)
    (hb : 0 ≤ r ∧ r < (g.size : Int) ∧ 0 ≤ c ∧ c < (g.size : Int))
    (hinv : occInv g) :
    occInv (move_cat g r c) ∧ WFGrid (move_cat g r c) ∧ (move_cat g r c).size = g.size := by
  obtain ⟨hcatin, hocc, hcat⟩ := hinv
  obtain ⟨hcr, hcc⟩ := toNat_bounds g hwf g.cat_row g.cat_col hcatin
  have hwfmid : WFGrid { g with hexgrid := gridSet g.hexgrid g.cat_row g.cat_col EMPTY_TILE } :=
    WFGrid_gridSet g _ g.cat_row g.cat_col EMPTY_TILE hwf rfl rfl
  obtain ⟨hr1, hc1⟩ := toNat_bounds _ hwfmid r c hb
  obtain ⟨hr0, hc0⟩ := toNat_bounds g hwf r c hb
  have hcount1 := occCount_gridSet g.hexgrid g.cat_row g.cat_col EMPTY_TILE hcr hcc
  rw [hcat] at hcount1
  have hcount2 := occCount_gridSet (gridSet g.hexgrid g.cat_row g.cat_col EMPTY_TILE)
    r c CAT_TILE hr1 hc1
  have hx : gridGet (gridSet g.hexgrid g.cat_row g.cat_col EMPTY_TILE) r c ≠ CAT_TILE := by
    by_cases hsame : r.toNat = g.cat_row.toNat ∧ c.toNat = g.cat_col.toNat
    · rw [gridGet_congr_toNat _ r c g.cat_row g.cat_col hsame.1 hsame.2,
        gridGet_gridSet_self _ _ _ _ hcr hcc]
      simp [EMPTY_TILE, CAT_TILE]
    · have hne : r.toNat ≠ g.cat_row.toNat ∨ c.toNat ≠ g.cat_col.toNat := by tauto
      rw [gridGet_gridSet_ne _ _ _ _ _ _ (hne.imp Ne.symm Ne.symm)]
      intro hcat2
      have := two_cats_le g.hexgrid r c g.cat_row g.cat_col hr0 hc0 hcr hcc hne hcat2 hcat
      omega
  rw [if_neg hx] at hcount2
  refine ⟨⟨?_, ?_, ?_⟩, ?_, rfl⟩
  · exact hb
  · show occCount (gridSet (gridSet g.hexgrid g.cat_row g.cat_col EMPTY_TILE) r c CAT_TILE) = 1
    simp [EMPTY_TILE, CAT_TILE] at hcount1 hcount2 ⊢
    omega
  · show gridGet (gridSet (gridSet g.hexgrid g.cat_row g.cat_col EMPTY_TILE) r c CAT_TILE)
      r c = CAT_TILE
    exact gridGet_gridSet_self _ _ _ _ hr1 hc1
  · exact WFGrid_gridSet { g with hexgrid := gridSet g.hexgrid g.cat_row g.cat_col EMPTY_TILE }
      _ r c CAT_TILE hwfmid rfl rfl

/-- C8: starting from a well-formed board with exactly one occupied tile at
the cached cat coordinate, any sequence of successful `apply_move` and
`move_cat` operations (with in-bounds coordinates) preserves the invariant:
exactly one occupied tile, located at the cached `(cat_row, cat_col)`. -/
theorem C8_single_occupancy (ops : List BoardOp) :
    ∀ (g g' : CatTrapGame), WFGrid g → occInv g →
      (∀ op ∈ ops, opInBounds g.size op) → runOps g ops = some g' →
      occInv g' := by
  induction ops with
  | nil =>
    intro g g' _ hinv _ hrun
    unfold runOps at hrun
    injection hrun with h
    exact h ▸ hinv
  | cons op rest ih =>
    intro g g' hwf hinv hops hrun
    unfold runOps at hrun
    cases hop : runOp g op with
    | none => rw [hop] at hrun; exact absurd hrun (by simp)
    | some g1 =>
      rw [hop] at hrun
      cases op with
      | apply m mp =>
        have hbnd : inB g m.1 m.2 := hops _ (List.mem_cons_self _ _)
        cases happ : apply_move g m mp with
        | error e => rw [runOp, happ] at hop; exact absurd hop (by simp [Except.toOption])
        | ok gok =>
          have hg1 : g1 = gok := by
            rw [runOp, happ] at hop
            simpa [Except.toOption] using hop.symm
          subst hg1
          obtain ⟨hinv1, hwf1, hsz1⟩ := occInv_apply_move g m mp _ hwf hbnd hinv happ
          exact ih g1 g' hwf1 hinv1
            (by rw [hsz1]; exact fun o ho => hops o (List.mem_cons_of_mem _ ho)) hrun
      | move r c =>
        have hbnd : opInBounds g.size (BoardOp.move r c) := hops _ (List.mem_cons_self _ _)
        have hg1 : g1 = move_cat g r c := by
          rw [runOp] at hop
          simpa using hop.symm
        subst hg1
        obtain ⟨hinv1, hwf1, hsz1⟩ := occInv_move_cat g r c hwf hbnd hinv
        exact ih _ g' hwf1 hinv1
          (by rw [hsz1]; exact fun o ho => hops o (List.mem_cons_of_mem _ ho)) hrun

theorem C8_witness : occInv (move_cat board3 0 1) :=
  C8_single_occupancy [BoardOp.move 0 1] board3 (move_cat board3 0 1)
    (by decide) (by decide) (by decide) rfl

/-! ## C2: the ±100 characterisation of `utility`

Two flaws in the claim as stated:
* the `num_moves == 0` branch of the source has no ply test, so −100 is
  returned for *either* ply whenever the cat is off the boundary and
  `num_moves = 0`;
* for boards of size ≥ 51 the proximity score can itself reach exactly 100
  off the boundary (`2·N − d = 100` with an achievable walk distance
  `d = 2·N − 100`), so +100 does not imply a boundary position in general.
Both are exhibited by `C2_counterexample`; the amended claim drops the ply
condition from the −100 case and restricts the +100 equivalence to
`1 ≤ size ≤ 50`, where the proximity score is confined to
`[2·N − 100, 2·N − 1] ⊆ [−98, 99]`. -/

/-- The equivalences claimed by C2, at one argument triple. -/
def C2ClaimAt (g : CatTrapGame) (n : Nat) (mp : Bool) : Prop :=
  (utility g n mp = 100 ↔ on_boundary g) ∧
  (utility g n mp = -100 ↔ (mp = true ∧ n = 0))

instance (g : CatTrapGame) (n : Nat) (mp : Bool) : Decidable (C2ClaimAt g n mp) := by
  unfold C2ClaimAt; infer_instance

/-- An all-empty row of width 51. -/
def row51 : List Nat := List.replicate 51 0

/-- A 51×51 board, cat at `(25, 1)`: interior, but two steps from the west
edge, so the proximity score is `2·51 − 2 = 100`. -/
def board51 : CatTrapGame :=
  { size := 51,
    hexgrid := (List.replicate 25 row51) ++ [row51.set 1 CAT_TILE] ++ (List.replicate 25 row51),
    cat_row := 25, cat_col := 1 }

/-- C2 counterexample: at `board3` (interior cat) with `num_moves = 0` on the
trapper's ply, `utility` returns −100 although it is not the evader's ply;
and at `board51` (interior cat) `utility` returns +100 off the boundary. -/
theorem C2_counterexample :
    (¬ C2ClaimAt board3 0 false) ∧ (¬ C2ClaimAt board51 1 true) := by
  decide

theorem walkAux_ge (g : CatTrapGame) (d : Dir) :
    ∀ (fuel : Nat) (dist r c : Int), 0 ≤ dist → dist ≤ walkAux g d fuel dist r c := by
  intro fuel
  induction fuel with
  | zero =>
    intro dist r c h
    simp only [walkAux]
    omega
  | succ n ih =>
    intro dist r c h
    simp only [walkAux]
    split_ifs with h1 h2
    · omega
    · omega
    · have := ih (dist + 1) (get_target_position r c d).1 (get_target_position r c d).2
        (by omega)
      omega

theorem walkDistance_ge_one (g : CatTrapGame) (d : Dir) : 1 ≤ walkDistance g d := by
  unfold walkDistance walk_fuel
  simp only [walkAux]
  split_ifs with h1 h2
  · omega
  · omega
  · have := walkAux_ge g d g.size ((0:Int) + 1)
      (get_target_position g.cat_row g.cat_col d).1
      (get_target_position g.cat_row g.cat_col d).2 (by omega)
    omega

/-- In any ascending sort of `100 :: 100 :: l` with every element of `l`
positive, the first two entries lie in `[1, 100]`. -/
theorem sorted_sentinel_bounds (l s : List Int)
    (hperm : s.Perm ((100 : Int) :: 100 :: l))
    (hsort : s.Sorted (· ≤ ·))
    (hl : ∀ x ∈ l, (1 : Int) ≤ x) :
    1 ≤ s.getD 0 0 ∧ s.getD 0 0 ≤ 100 ∧ 1 ≤ s.getD 1 0 ∧ s.getD 1 0 ≤ 100 := by
  have hlen : 2 ≤ s.length := by
    rw [hperm.length_eq]
    simp
  have hmem1 : ∀ x ∈ s, (1 : Int) ≤ x := by
    intro x hx
    rw [hperm.mem_iff] at hx
    rcases List.mem_cons.mp hx with h | hx
    · omega
    · rcases List.mem_cons.mp hx with h | hx
      · omega
      · exact hl x hx
  obtain ⟨a, b, t, habt⟩ : ∃ a b t, s = a :: b :: t := by
    have h0 : s ≠ [] := by intro hh; rw [hh] at hlen; simp at hlen
    obtain ⟨a, s1, h1⟩ := List.exists_cons_of_ne_nil h0
    have h2 : s1 ≠ [] := by intro hh; rw [h1, hh] at hlen; simp at hlen
    obtain ⟨b, t, h3⟩ := List.exists_cons_of_ne_nil h2
    exact ⟨a, b, t, by rw [h1, h3]⟩
  have hcount : 2 ≤ s.count (100 : Int) := by
    rw [hperm.count_eq]
    rw [show ((100 : Int) :: 100 :: l) = [(100 : Int), 100] ++ l from rfl, List.count_append]
    have h2 : ([100, 100] : List Int).count 100 = 2 := by decide
    omega
  have hb100 : b ≤ 100 := by
    by_contra hbg
    push_neg at hbg
    have hnot : (100 : Int) ∉ b :: t := by
      intro hmem
      rcases List.mem_cons.mp hmem with h | h
      · omega
      · have hst : (b :: t).Sorted (· ≤ ·) := by
          rw [habt] at hsort
          exact hsort.of_cons
        have := List.rel_of_sorted_cons hst _ h
        omega
    have hle : s.count (100 : Int) ≤ 1 := by
      rw [habt, List.count_cons, List.count_eq_zero.mpr hnot]
      split_ifs <;> omega
    omega
  have hab : a ≤ b := by
    rw [habt] at hsort
    exact List.rel_of_sorted_cons hsort _ (List.mem_cons_self _ _)
  have ha1 : 1 ≤ a := hmem1 a (by rw [habt]; exact List.mem_cons_self _ _)
  have hb1 : 1 ≤ b := hmem1 b (by rw [habt]; simp)
  rw [habt]
  simp only [List.getD_cons_zero, List.getD_cons_succ]
  omega

theorem score_proximity_bounds (g : CatTrapGame) (mp : Bool) (hs1 : 1 ≤ g.size) :
    2 * (g.size : Int) - 100 ≤ score_proximity g mp ∧
    score_proximity g mp ≤ 2 * (g.size : Int) - 1 := by
  simp only [score_proximity]
  have hb := sorted_sentinel_bounds ((get_valid_moves g).map (walkDistance g))
    ((([100, 100] : List Int) ++ (get_valid_moves g).map (walkDistance g)).insertionSort (· ≤ ·))
    (List.perm_insertionSort _ _) (List.sorted_insertionSort _ _)
    (by
      intro x hx
      obtain ⟨dd, _, hw⟩ := List.mem_map.mp hx
      rw [← hw]
      exact walkDistance_ge_one g dd)
  have hcast : (1 : Int) ≤ (g.size : Int) := by exact_mod_cast hs1
  split_ifs with hmp <;>
    (constructor <;> omega)

/-- C2 (amended): for boards with `1 ≤ size ≤ 50`, `utility` returns +100 iff
the cached cat coordinate is on the boundary, and −100 iff the cat is off the
boundary and `num_moves = 0` — for either ply (the source's −100 branch has
no ply test). -/
theorem C2_utility_pm100 (g : CatTrapGame) (n : Nat) (mp : Bool)
    (hs1 : 1 ≤ g.size) (hs50 : g.size ≤ 50) :
    (utility g n mp = 100 ↔ on_boundary g) ∧
    (utility g n mp = -100 ↔ (¬ on_boundary g ∧ n = 0)) := by
  unfold utility
  by_cases hb : on_boundary g
  · rw [if_pos hb]
    exact ⟨iff_of_true rfl hb, iff_of_false (by norm_num) (fun h => h.1 hb)⟩
  · rw [if_neg hb]
    by_cases hn : n = 0
    · rw [if_pos hn]
      exact ⟨iff_of_false (by norm_num) hb, iff_of_true rfl ⟨hb, hn⟩⟩
    · rw [if_neg hn]
      obtain ⟨hlo, hhi⟩ := score_proximity_bounds g mp hs1
      have hc50 : (g.size : Int) ≤ 50 := by exact_mod_cast hs50
      have hc1 : (1 : Int) ≤ (g.size : Int) := by exact_mod_cast hs1
      constructor
      · exact iff_of_false (fun h => by omega) hb
      · exact iff_of_false (fun h => by omega) (fun h => hn h.2)

theorem C2_witness :
    (utility board3 1 true = 100 ↔ on_boundary board3) ∧
    (utility board3 1 true = -100 ↔ (¬ on_boundary board3 ∧ 1 = 0)) :=
  C2_utility_pm100 board3 1 true (by decide) (by decide)

/-! ## C6: every recorded leaf/cutoff value is `(N² − depth) · utility` -/

/-- C6: in all four search functions, when a node is a leaf — out of moves or
truncated at `max_depth` on the max side; at `max_depth` or terminal-escape on
the min side — and the deadline poll does not fire, the value recorded is
exactly `(size² − depth) * utility(...)` evaluated on that node's board. -/
theorem C6_weighted_leaf_values :
    (∀ (clock : Clock) (md : Option Nat) (rootCat : Int × Int) (fuel : Nat)
       (upper_game : CatTrapGame) (move : Int × Int) (mp0 : Bool) (depth : Nat) (st : SState),
      clock st.tick = false →
      (get_valid_moves (phaseMax upper_game move mp0).1 = [] ∨ md = some depth) →
      (max_value clock md rootCat (fuel + 1) upper_game move mp0 depth st).1.2 =
        iv ((((phaseMax upper_game move mp0).1.size : Int) ^ 2 - depth) *
          utility (phaseMax upper_game move mp0).1
            (get_valid_moves (phaseMax upper_game move mp0).1).length
            (phaseMax upper_game move mp0).2)) ∧
    (∀ (clock : Clock) (md : Option Nat) (rootCat : Int × Int) (fuel : Nat)
       (upper_game : CatTrapGame) (move : Int × Int) (mp0 : Bool) (depth : Nat) (st : SState),
      clock st.tick = false →
      (md = some depth ∨ on_boundary (apply_move_unchecked upper_game move (!mp0))) →
      (min_value clock md rootCat (fuel + 1) upper_game move mp0 depth st).1 =
        iv ((((apply_move_unchecked upper_game move (!mp0)).size : Int) ^ 2 - depth) *
          utility (apply_move_unchecked upper_game move (!mp0)) 1 (!mp0))) ∧
    (∀ (clock : Clock) (md : Option Nat) (rootCat : Int × Int) (fuel : Nat)
       (upper_game : CatTrapGame) (move : Int × Int) (alpha beta : V) (mp0 : Bool)
       (depth : Nat) (st : SState),
      clock st.tick = false →
      (get_valid_moves (phaseMax upper_game move mp0).1 = [] ∨ md = some depth) →
      (alpha_beta_max_value clock md rootCat (fuel + 1) upper_game move alpha beta mp0
          depth st).1.2 =
        iv ((((phaseMax upper_game move mp0).1.size : Int) ^ 2 - depth) *
          utility (phaseMax upper_game move mp0).1
            (get_valid_moves (phaseMax upper_game move mp0).1).length
            (phaseMax upper_game move mp0).2)) ∧
    (∀ (clock : Clock) (md : Option Nat) (rootCat : Int × Int) (fuel : Nat)
       (upper_game : CatTrapGame) (move : Int × Int) (alpha beta : V) (mp0 : Bool)
       (depth : Nat) (st : SState),
      clock st.tick = false →
      (md = some depth ∨ on_boundary (apply_move_unchecked upper_game move (!mp0))) →
      (alpha_beta_min_value clock md rootCat (fuel + 1) upper_game move alpha beta mp0
          depth st).1 =
        iv ((((apply_move_unchecked upper_game move (!mp0)).size : Int) ^ 2 - depth) *
          utility (apply_move_unchecked upper_game move (!mp0)) 1 (!mp0))) := by
  refine ⟨?_, ?_, ?_, ?_⟩
  · intro clock md rootCat fuel upper_game move mp0 depth st hclk hleaf
    simp only [max_value, hclk, Bool.false_eq_true, if_false, if_pos hleaf, leafVal]
  · intro clock md rootCat fuel upper_game move mp0 depth st hclk hleaf
    simp only [min_value, hclk, Bool.false_eq_true, if_false, if_pos hleaf, leafVal]
  · intro clock md rootCat fuel upper_game move alpha beta mp0 depth st hclk hleaf
    simp only [alpha_beta_max_value, hclk, Bool.false_eq_true, if_false, if_pos hleaf, leafVal]
  · intro clock md rootCat fuel upper_game move alpha beta mp0 depth st hclk hleaf
    simp only [alpha_beta_min_value, hclk, Bool.false_eq_true, if_false, if_pos hleaf, leafVal]

theorem C6_witness :
    (max_value neverClock none (1, 1) 1 board3Walled noMove true 0 st0).1.2 =
      iv ((((phaseMax board3Walled noMove true).1.size : Int) ^ 2 - 0) *
        utility (phaseMax board3Walled noMove true).1
          (get_valid_moves (phaseMax board3Walled noMove true).1).length
          (phaseMax board3Walled noMove true).2) ∧
    (min_value neverClock (some 0) (1, 1) 1 board3 (0, 0) true 0 st0).1 =
      iv ((((apply_move_unchecked board3 (0, 0) (!true)).size : Int) ^ 2 - 0) *
        utility (apply_move_unchecked board3 (0, 0) (!true)) 1 (!true)) :=
  ⟨C6_weighted_leaf_values.1 neverClock none (1, 1) 0 board3Walled noMove true 0 st0
      rfl (by decide),
   C6_weighted_leaf_values.2.1 neverClock (some 0) (1, 1) 0 board3 (0, 0) true 0 st0
      rfl (Or.inl rfl)⟩

/-! ## C9: the deadline poll and the terminated-unwind contract -/

/-- C9: every recursive entry polls the deadline; if the poll fires the
function sets `terminated` and returns the sentinel (`[-1,-1]`, value 0)
without expanding any candidate, and every sibling loop, upon observing
`terminated` from a child, returns the sentinel immediately without examining
the remaining sibling moves (the result is independent of the untried rest of
the move list). -/
theorem C9_deadline_contract :
    (∀ (clock : Clock) (md : Option Nat) (rootCat : Int × Int) (fuel : Nat)
       (upper_game : CatTrapGame) (move : Int × Int) (mp0 : Bool) (depth : Nat) (st : SState),
      clock st.tick = true →
      max_value clock md rootCat (fuel + 1) upper_game move mp0 depth st =
        ((noMove, iv 0), { st with tick := st.tick + 1, terminated := true })) ∧
    (∀ (clock : Clock) (md : Option Nat) (rootCat : Int × Int) (fuel : Nat)
       (upper_game : CatTrapGame) (move : Int × Int) (mp0 : Bool) (depth : Nat) (st : SState),
      clock st.tick = true →
      min_value clock md rootCat (fuel + 1) upper_game move mp0 depth st =
        (iv 0, { st with tick := st.tick + 1, terminated := true })) ∧
    (∀ (clock : Clock) (md : Option Nat) (rootCat : Int × Int) (fuel : Nat)
       (upper_game : CatTrapGame) (move : Int × Int) (alpha beta : V) (mp0 : Bool)
       (depth : Nat) (st : SState),
      clock st.tick = true →
      alpha_beta_max_value clock md rootCat (fuel + 1) upper_game move alpha beta mp0 depth st =
        ((noMove, iv 0), { st with tick := st.tick + 1, terminated := true })) ∧
    (∀ (clock : Clock) (md : Option Nat) (rootCat : Int × Int) (fuel : Nat)
       (upper_game : CatTrapGame) (move : Int × Int) (alpha beta : V) (mp0 : Bool)
       (depth : Nat) (st : SState),
      clock st.tick = true →
      alpha_beta_min_value clock md rootCat (fuel + 1) upper_game move alpha beta mp0 depth st =
        (iv 0, { st with tick := st.tick + 1, terminated := true })) ∧
    (∀ (child : (Int × Int) → SState → V × SState) (game : CatTrapGame) (d : Dir)
       (rest : List Dir) (bv : V) (bm : Int × Int) (st : SState),
      (child (get_target_position game.cat_row game.cat_col d) st).2.terminated = true →
      maxLoop child game (d :: rest) bv bm st =
        ((noMove, iv 0), (child (get_target_position game.cat_row game.cat_col d) st).2)) ∧
    (∀ (child : (Int × Int) → SState → ((Int × Int) × V) × SState) (m : Int × Int)
       (rest : List (Int × Int)) (bv : V) (st : SState),
      (child m st).2.terminated = true →
      minLoop child (m :: rest) bv st = (iv 0, (child m st).2)) ∧
    (∀ (child : (Int × Int) → V → V → SState → V × SState) (game : CatTrapGame)
       (beta : V) (d : Dir) (rest : List Dir) (bv : V) (bm : Int × Int) (alpha : V)
       (st : SState),
      (child (get_target_position game.cat_row game.cat_col d) alpha beta st).2.terminated
          = true →
      abMaxLoop child game beta (d :: rest) bv bm alpha st =
        ((noMove, iv 0),
          (child (get_target_position game.cat_row game.cat_col d) alpha beta st).2)) ∧
    (∀ (child : (Int × Int) → V → V → SState → ((Int × Int) × V) × SState) (alpha : V)
       (m : Int × Int) (rest : List (Int × Int)) (bv beta : V) (st : SState),
      (child m alpha beta st).2.terminated = true →
      abMinLoop child alpha (m :: rest) bv beta st = (iv 0, (child m alpha beta st).2)) := by
  refine ⟨?_, ?_, ?_, ?_, ?_, ?_, ?_, ?_⟩
  · intro clock md rootCat fuel upper_game move mp0 depth st hclk
    simp only [max_value, hclk, if_true]
  · intro clock md rootCat fuel upper_game move mp0 depth st hclk
    simp only [min_value, hclk, if_true]
  · intro clock md rootCat fuel upper_game move alpha beta mp0 depth st hclk
    simp only [alpha_beta_max_value, hclk, if_true]
  · intro clock md rootCat fuel upper_game move alpha beta mp0 depth st hclk
    simp only [alpha_beta_min_value, hclk, if_true]
  · intro child game d rest bv bm st hterm
    simp only [maxLoop, hterm, if_true]
  · intro child m rest bv st hterm
    simp only [minLoop, hterm, if_true]
  · intro child game beta d rest bv bm alpha st hterm
    simp only [abMaxLoop, hterm, if_true]
  · intro child alpha m rest bv beta st hterm
    simp only [abMinLoop, hterm, if_true]

theorem C9_witness :
    max_value (fun _ => true) none (1, 1) 1 board3 noMove true 0 st0 =
      ((noMove, iv 0), { st0 with tick := st0.tick + 1, terminated := true }) ∧
    minLoop (fun _ st => ((noMove, iv 0), { st with terminated := true })) [(0, 0), (0, 1)]
        ⊤ st0 =
      (iv 0, { st0 with terminated := true }) :=
  ⟨C9_deadline_contract.1 (fun _ => true) none (1, 1) 0 board3 noMove true 0 st0 rfl,
   C9_deadline_contract.2.2.2.2.2.1 (fun _ st => ((noMove, iv 0), { st with terminated := true }))
     (0, 0) [(0, 1)] ⊤ st0 rfl⟩

/-! ## C3: iterative deepening

The loop-step behaviour is as claimed *except* for the returned value on
termination: `best_move, utility = self.alpha_beta()/self.minimax()`
overwrites `utility` before the `terminated` check, and the `break` then
returns `output_move, utility` — the move of the last fully completed depth
but the *value of the terminated attempt*.  `C3_counterexample` exhibits a
run where depth 1 completes with value 800, depth 2 is terminated at its
first poll, and `iterative_deepening` returns the depth-1 move paired with
the sentinel value 0. -/

/-- The deadline oracle of the C3 counterexample: the first seven polls
succeed (exactly the depth-1 search on `board3`), the eighth fires. -/
def clk3 : Clock := fun t => decide (7 ≤ t)

/-- C3 counterexample: on `board3` with `clk3`, depth 1 completes fully with
value 800 (and `reached_max_depth` set, so deepening continues); the depth-2
attempt is terminated immediately; `iterative_deepening` then returns the
depth-1 move `(1,2)` but value 0 — not the completed depth's value 800. -/
theorem C3_counterexample :
    (minimax clk3 50 (some 1) board3 true { st0 with reached_max_depth := false }).1 =
      ((1, 2), iv 800) ∧
    (minimax clk3 50 (some 1) board3 true { st0 with reached_max_depth := false
      }).2.terminated = false ∧
    (iterative_deepening clk3 50 false board3 st0).1 = ((1, 2), iv 0) ∧
    iv 0 ≠ iv 800 := by
  refine ⟨by decide, by decide, by decide, by decide⟩

/-- C3 (amended): one step of the `iterative_deepening` loop.  If the
depth-`d` attempt is terminated mid-flight, the loop stops and returns the
move accumulated from the last fully completed depth together with the
*terminated attempt's* value; if the attempt completes without setting
`reached_max_depth`, the loop stops and returns that attempt's move and
value; if it completes with `reached_max_depth` set, the loop continues
deepening with that attempt's result as the new accumulator. -/
theorem C3_iterative_deepening (clock : Clock) (fuel : Nat) (uab : Bool) (g : CatTrapGame)
    (d : Nat) (rest : List Nat) (mv : Int × Int) (ut : V) (st : SState) :
    (let r := if uab then alpha_beta clock fuel (some d) g true
        { st with reached_max_depth := false }
      else minimax clock fuel (some d) g true { st with reached_max_depth := false };
     (r.2.terminated = true →
        idLoop clock fuel uab g (d :: rest) mv ut st = ((mv, r.1.2), r.2)) ∧
     (r.2.terminated = false → r.2.reached_max_depth = false →
        idLoop clock fuel uab g (d :: rest) mv ut st = (r.1, r.2)) ∧
     (r.2.terminated = false → r.2.reached_max_depth = true →
        idLoop clock fuel uab g (d :: rest) mv ut st =
          idLoop clock fuel uab g rest r.1.1 r.1.2 r.2)) := by
  refine ⟨?_, ?_, ?_⟩
  · intro hterm
    simp only [idLoop, hterm, if_true]
  · intro hterm hrmd
    simp only [idLoop, hterm, hrmd, Bool.false_eq_true, if_false, Bool.not_false, if_true]
  · intro hterm hrmd
    simp only [idLoop, hterm, hrmd, Bool.false_eq_true, if_false, Bool.not_true]

/-- The search state after the completed depth-1 run of the C3 scenario. -/
def st7rmd : SState := { tick := 7, terminated := false, reached_max_depth := true }

def st7 : SState := { tick := 7, terminated := false, reached_max_depth := false }

theorem C3_witness :
    idLoop clk3 50 false board3 [2] (1, 2) (iv 800) st7rmd =
      (((1, 2), (minimax clk3 50 (some 2) board3 true st7).1.2),
       (minimax clk3 50 (some 2) board3 true st7).2) :=
  (C3_iterative_deepening clk3 50 false board3 2 [] (1, 2) (iv 800) st7rmd).1 (by decide)

/-! ## C1: alpha-beta computes the minimax value

The proof is organised in three layers:
1. value-only, state-free versions of the four search functions (`umax`,
   `umin`, `uabmax`, `uabmin`), which are the timed functions with the
   (never-firing) deadline poll and the bookkeeping erased;
2. an agreement theorem: when the deadline oracle never fires and
   `terminated` starts false, the timed functions compute exactly these
   values (and never set `terminated`);
3. the Knuth–Moore style fail-soft invariant `KMrel` relating the alpha-beta
   recursion to the plain minimax recursion, giving equality at the root
   window `(⊥, ⊤)`. -/

def umaxLoop (child : (Int × Int) → V) (game : CatTrapGame) : List Dir → V → V
  | [], b => b
  | d :: rest, b =>
    let v := child (get_target_position game.cat_row game.cat_col d)
    umaxLoop child game rest (if b < v then v else b)

def uminLoop (child : (Int × Int) → V) : List (Int × Int) → V → V
  | [], b => b
  | m :: rest, b =>
    let v := child m
    uminLoop child rest (if b ≤ v then b else v)

def uabMaxLoop (child : (Int × Int) → V → V → V) (game : CatTrapGame) (beta : V) :
    List Dir → V → V → V
  | [], b, _alpha => b
  | d :: rest, b, alpha =>
    let v := child (get_target_position game.cat_row game.cat_col d) alpha beta
    let bv := if b < v then v else b
    if beta ≤ bv then bv
    else uabMaxLoop child game beta rest bv (if alpha ≤ bv then bv else alpha)

def uabMinLoop (child : (Int × Int) → V → V → V) (alpha : V) :
    List (Int × Int) → V → V → V
  | [], b, _beta => b
  | m :: rest, b, beta =>
    let v := child m alpha beta
    let bv := if b ≤ v then b else v
    if bv ≤ alpha then bv
    else uabMinLoop child alpha rest bv (if beta ≤ bv then beta else bv)

mutual

def umax (md : Option Nat) (fuel : Nat) (upper_game : CatTrapGame) (move : Int × Int)
    (mp0 : Bool) (depth : Nat) : V :=
  match fuel with
  | 0 => iv 0
  | fuel + 1 =>
    let gm := phaseMax upper_game move mp0
    let game := gm.1
    let mp := gm.2
    let legal_moves := get_valid_moves game
    if legal_moves = [] ∨ md = some depth then
      leafVal game legal_moves.length mp depth
    else
      umaxLoop (fun m => umin md fuel game m mp (depth + 1)) game legal_moves ⊥

def umin (md : Option Nat) (fuel : Nat) (upper_game : CatTrapGame) (move : Int × Int)
    (mp0 : Bool) (depth : Nat) : V :=
  match fuel with
  | 0 => iv 0
  | fuel + 1 =>
    let mp := !mp0
    let game := apply_move_unchecked upper_game move mp
    if md = some depth ∨ on_boundary game then leafVal game 1 mp depth
    else uminLoop (fun m => umax md fuel game m mp (depth + 1)) (empty_tiles game) ⊤

end

mutual

def uabmax (md : Option Nat) (fuel : Nat) (upper_game : CatTrapGame) (move : Int × Int)
    (mp0 : Bool) (depth : Nat) (alpha beta : V) : V :=
  match fuel with
  | 0 => iv 0
  | fuel + 1 =>
    let gm := phaseMax upper_game move mp0
    let game := gm.1
    let mp := gm.2
    let legal_moves := get_valid_moves game
    if legal_moves = [] ∨ md = some depth then
      leafVal game legal_moves.length mp depth
    else
      uabMaxLoop (fun m a b => uabmin md fuel game m mp (depth + 1) a b) game beta
        legal_moves ⊥ alpha

def uabmin (md : Option Nat) (fuel : Nat) (upper_game : CatTrapGame) (move : Int × Int)
    (mp0 : Bool) (depth : Nat) (alpha beta : V) : V :=
  match fuel with
  | 0 => iv 0
  | fuel + 1 =>
    let mp := !mp0
    let game := apply_move_unchecked upper_game move mp
    if md = some depth ∨ on_boundary game then leafVal game 1 mp depth
    else
      uabMinLoop (fun m a b => uabmax md fuel game m mp (depth + 1) a b) alpha
        (empty_tiles game) ⊤ beta

end

theorem ite_lt_eq_max (b v : V) : (if b < v then v else b) = max b v := by
  split_ifs with h
  · exact (max_eq_right h.le).symm
  · exact (max_eq_left (not_lt.mp h)).symm

theorem ite_le_eq_min (b v : V) : (if b ≤ v then b else v) = min b v := by
  split_ifs with h
  · exact (min_eq_left h).symm
  · exact (min_eq_right (not_le.mp h).le).symm

theorem ite_le_eq_max (a b : V) : (if a ≤ b then b else a) = max a b := by
  split_ifs with h
  · exact (max_eq_right h).symm
  · exact (max_eq_left (not_le.mp h).le).symm

theorem ite_le_eq_min' (a b : V) : (if a ≤ b then a else b) = min a b := by
  split_ifs with h
  · exact (min_eq_left h).symm
  · exact (min_eq_right (not_le.mp h).le).symm

theorem umaxLoop_factor (child : (Int × Int) → V) (game : CatTrapGame) :
    ∀ (ms : List Dir) (b : V),
      umaxLoop child game ms b = max b (umaxLoop child game ms ⊥) := by
  intro ms
  induction ms with
  | nil =>
    intro b
    simp only [umaxLoop]
    exact (max_eq_left bot_le).symm
  | cons d rest ih =>
    intro b
    simp only [umaxLoop, ite_lt_eq_max]
    rw [ih (max b (child (get_target_position game.cat_row game.cat_col d))),
      ih (max ⊥ (child (get_target_position game.cat_row game.cat_col d))),
      max_eq_right (bot_le :
        (⊥ : V) ≤ child (get_target_position game.cat_row game.cat_col d)),
      max_assoc]

theorem uminLoop_factor (child : (Int × Int) → V) :
    ∀ (ms : List (Int × Int)) (b : V),
      uminLoop child ms b = min b (uminLoop child ms ⊤) := by
  intro ms
  induction ms with
  | nil =>
    intro b
    simp only [uminLoop]
    exact (min_eq_left le_top).symm
  | cons m rest ih =>
    intro b
    simp only [uminLoop, ite_le_eq_min]
    rw [ih (min b (child m)), ih (min ⊤ (child m)),
      min_eq_right (le_top : child m ≤ (⊤ : V)), min_assoc]

theorem umaxLoop_ge_acc (child : (Int × Int) → V) (game : CatTrapGame) :
    ∀ (ms : List Dir) (b : V), b ≤ umaxLoop child game ms b := by
  intro ms
  induction ms with
  | nil => intro b; simp only [umaxLoop]; exact le_refl b
  | cons d rest ih =>
    intro b
    simp only [umaxLoop, ite_lt_eq_max]
    exact (le_max_left _ _).trans (ih _)

theorem uminLoop_le_acc (child : (Int × Int) → V) :
    ∀ (ms : List (Int × Int)) (b : V), uminLoop child ms b ≤ b := by
  intro ms
  induction ms with
  | nil => intro b; simp only [uminLoop]; exact le_refl b
  | cons m rest ih =>
    intro b
    simp only [uminLoop, ite_le_eq_min]
    exact (ih _).trans (min_le_left _ _)

theorem maxLoop_val_agree (tchild : (Int × Int) → SState → V × SState)
    (uchild : (Int × Int) → V) (game : CatTrapGame)
    (hch : ∀ m st, st.terminated = false →
      (tchild m st).1 = uchild m ∧ (tchild m st).2.terminated = false) :
    ∀ (ms : List Dir) (bv : V) (bm : Int × Int) (st : SState), st.terminated = false →
      (maxLoop tchild game ms bv bm st).1.2 = umaxLoop uchild game ms bv ∧
      (maxLoop tchild game ms bv bm st).2.terminated = false := by
  intro ms
  induction ms with
  | nil =>
    intro bv bm st hst
    simp only [maxLoop, umaxLoop]
    exact ⟨trivial, hst⟩
  | cons d rest ih =>
    intro bv bm st hst
    obtain ⟨hv, ht⟩ := hch (get_target_position game.cat_row game.cat_col d) st hst
    simp only [maxLoop, umaxLoop, hv, ht, Bool.false_eq_true, if_false]
    exact ih _ _ _ ht

theorem minLoop_val_agree (tchild : (Int × Int) → SState → ((Int × Int) × V) × SState)
    (uchild : (Int × Int) → V)
    (hch : ∀ m st, st.terminated = false →
      (tchild m st).1.2 = uchild m ∧ (tchild m st).2.terminated = false) :
    ∀ (ms : List (Int × Int)) (bv : V) (st : SState), st.terminated = false →
      (minLoop tchild ms bv st).1 = uminLoop uchild ms bv ∧
      (minLoop tchild ms bv st).2.terminated = false := by
  intro ms
  induction ms with
  | nil =>
    intro bv st hst
    simp only [minLoop, uminLoop]
    exact ⟨trivial, hst⟩
  | cons m rest ih =>
    intro bv st hst
    obtain ⟨hv, ht⟩ := hch m st hst
    simp only [minLoop, uminLoop, hv, ht, Bool.false_eq_true, if_false]
    exact ih _ _ ht

theorem abMaxLoop_val_agree (tchild : (Int × Int) → V → V → SState → V × SState)
    (uchild : (Int × Int) → V → V → V) (game : CatTrapGame) (beta : V)
    (hch : ∀ m a b st, st.terminated = false →
      (tchild m a b st).1 = uchild m a b ∧ (tchild m a b st).2.terminated = false) :
    ∀ (ms : List Dir) (bv : V) (bm : Int × Int) (alpha : V) (st : SState),
      st.terminated = false →
      (abMaxLoop tchild game beta ms bv bm alpha st).1.2 =
        uabMaxLoop uchild game beta ms bv alpha ∧
      (abMaxLoop tchild game beta ms bv bm alpha st).2.terminated = false := by
  intro ms
  induction ms with
  | nil =>
    intro bv bm alpha st hst
    simp only [abMaxLoop, uabMaxLoop]
    exact ⟨trivial, hst⟩
  | cons d rest ih =>
    intro bv bm alpha st hst
    obtain ⟨hv, ht⟩ := hch (get_target_position game.cat_row game.cat_col d) alpha beta st hst
    simp only [abMaxLoop, uabMaxLoop, hv, ht, Bool.false_eq_true, if_false]
    by_cases hcut : beta ≤ if bv < uchild (get_target_position game.cat_row game.cat_col d)
        alpha beta then uchild (get_target_position game.cat_row game.cat_col d) alpha beta
      else bv
    · rw [if_pos hcut, if_pos hcut]
      exact ⟨rfl, ht⟩
    · rw [if_neg hcut, if_neg hcut]
      exact ih _ _ _ _ ht

theorem abMinLoop_val_agree (tchild : (Int × Int) → V → V → SState → ((Int × Int) × V) × SState)
    (uchild : (Int × Int) → V → V → V) (alpha : V)
    (hch : ∀ m a b st, st.terminated = false →
      (tchild m a b st).1.2 = uchild m a b ∧ (tchild m a b st).2.terminated = false) :
    ∀ (ms : List (Int × Int)) (bv beta : V) (st : SState), st.terminated = false →
      (abMinLoop tchild alpha ms bv beta st).1 = uabMinLoop uchild alpha ms bv beta ∧
      (abMinLoop tchild alpha ms bv beta st).2.terminated = false := by
  intro ms
  induction ms with
  | nil =>
    intro bv beta st hst
    simp only [abMinLoop, uabMinLoop]
    exact ⟨trivial, hst⟩
  | cons m rest ih =>
    intro bv beta st hst
    obtain ⟨hv, ht⟩ := hch m alpha beta st hst
    simp only [abMinLoop, uabMinLoop, hv, ht, Bool.false_eq_true, if_false]
    by_cases hcut : (if bv ≤ uchild m alpha beta then bv else uchild m alpha beta) ≤ alpha
    · rw [if_pos hcut, if_pos hcut]
      exact ⟨rfl, ht⟩
    · rw [if_neg hcut, if_neg hcut]
      exact ih _ _ _ ht

theorem minimax_val_agree (clock : Clock) (hclock : ∀ t, clock t = false) :
    ∀ (fuel : Nat),
      (∀ (md : Option Nat) (rootCat : Int × Int) (upper_game : CatTrapGame)
         (move : Int × Int) (mp0 : Bool) (depth : Nat) (st : SState),
        st.terminated = false →
        (max_value clock md rootCat fuel upper_game move mp0 depth st).1.2 =
          umax md fuel upper_game move mp0 depth ∧
        (max_value clock md rootCat fuel upper_game move mp0 depth st).2.terminated
          = false) ∧
      (∀ (md : Option Nat) (rootCat : Int × Int) (upper_game : CatTrapGame)
         (move : Int × Int) (mp0 : Bool) (depth : Nat) (st : SState),
        st.terminated = false →
        (min_value clock md rootCat fuel upper_game move mp0 depth st).1 =
          umin md fuel upper_game move mp0 depth ∧
        (min_value clock md rootCat fuel upper_game move mp0 depth st).2.terminated
          = false) := by
  intro fuel
  induction fuel with
  | zero =>
    constructor
    · intro md rootCat upper_game move mp0 depth st hst
      simp only [max_value, umax]
      exact ⟨trivial, hst⟩
    · intro md rootCat upper_game move mp0 depth st hst
      simp only [min_value, umin]
      exact ⟨trivial, hst⟩
  | succ n ih =>
    constructor
    · intro md rootCat upper_game move mp0 depth st hst
      simp only [max_value, umax, hclock st.tick, Bool.false_eq_true, if_false]
      by_cases hleaf : get_valid_moves (phaseMax upper_game move mp0).1 = [] ∨ md = some depth
      · rw [if_pos hleaf, if_pos hleaf]
        constructor
        · rfl
        · split_ifs <;> exact hst
      · rw [if_neg hleaf, if_neg hleaf]
        exact maxLoop_val_agree _ _ _
          (fun m st2 hst2 => ih.2 md rootCat _ m _ _ st2 hst2) _ _ _ _ (by simpa using hst)
    · intro md rootCat upper_game move mp0 depth st hst
      simp only [min_value, umin, hclock st.tick, Bool.false_eq_true, if_false]
      by_cases hleaf : md = some depth ∨ on_boundary (apply_move_unchecked upper_game move (!mp0))
      · rw [if_pos hleaf, if_pos hleaf]
        constructor
        · rfl
        · split_ifs <;> exact hst
      · rw [if_neg hleaf, if_neg hleaf]
        exact minLoop_val_agree _ _
          (fun m st2 hst2 => ih.1 md rootCat _ m _ _ st2 hst2) _ _ _ (by simpa using hst)

theorem alpha_beta_val_agree (clock : Clock) (hclock : ∀ t, clock t = false) :
    ∀ (fuel : Nat),
      (∀ (md : Option Nat) (rootCat : Int × Int) (upper_game : CatTrapGame)
         (move : Int × Int) (alpha beta : V) (mp0 : Bool) (depth : Nat) (st : SState),
        st.terminated = false →
        (alpha_beta_max_value clock md rootCat fuel upper_game move alpha beta mp0
            depth st).1.2 =
          uabmax md fuel upper_game move mp0 depth alpha beta ∧
        (alpha_beta_max_value clock md rootCat fuel upper_game move alpha beta mp0
            depth st).2.terminated = false) ∧
      (∀ (md : Option Nat) (rootCat : Int × Int) (upper_game : CatTrapGame)
         (move : Int × Int) (alpha beta : V) (mp0 : Bool) (depth : Nat) (st : SState),
        st.terminated = false →
        (alpha_beta_min_value clock md rootCat fuel upper_game move alpha beta mp0
            depth st).1 =
          uabmin md fuel upper_game move mp0 depth alpha beta ∧
        (alpha_beta_min_value clock md rootCat fuel upper_game move alpha beta mp0
            depth st).2.terminated = false) := by
  intro fuel
  induction fuel with
  | zero =>
    constructor
    · intro md rootCat upper_game move alpha beta mp0 depth st hst
      simp only [alpha_beta_max_value, uabmax]
      exact ⟨trivial, hst⟩
    · intro md rootCat upper_game move alpha beta mp0 depth st hst
      simp only [alpha_beta_min_value, uabmin]
      exact ⟨trivial, hst⟩
  | succ n ih =>
    constructor
    · intro md rootCat upper_game move alpha beta mp0 depth st hst
      simp only [alpha_beta_max_value, uabmax, hclock st.tick, Bool.false_eq_true, if_false]
      by_cases hleaf : get_valid_moves (phaseMax upper_game move mp0).1 = [] ∨ md = some depth
      · rw [if_pos hleaf, if_pos hleaf]
        constructor
        · rfl
        · split_ifs <;> exact hst
      · rw [if_neg hleaf, if_neg hleaf]
        exact abMaxLoop_val_agree _ _ _ _
          (fun m a b st2 hst2 => ih.2 md rootCat _ m a b _ _ st2 hst2) _ _ _ _ _
          (by simpa using hst)
    · intro md rootCat upper_game move alpha beta mp0 depth st hst
      simp only [alpha_beta_min_value, uabmin, hclock st.tick, Bool.false_eq_true, if_false]
      by_cases hleaf : md = some depth ∨ on_boundary (apply_move_unchecked upper_game move (!mp0))
      · rw [if_pos hleaf, if_pos hleaf]
        constructor
        · rfl
        · split_ifs <;> exact hst
      · rw [if_neg hleaf, if_neg hleaf]
        exact abMinLoop_val_agree _ _ _
          (fun m a b st2 hst2 => ih.1 md rootCat _ m a b _ _ st2 hst2) _ _ _ _
          (by simpa using hst)

/-- The fail-soft alpha-beta contract: `a` is the alpha-beta result, `v` the
true minimax value.  Failing low bounds `v` from above, failing high bounds
it from below, and inside the window the result is exact. -/
def KMrel (v a alpha beta : V) : Prop :=
  (a ≤ alpha → v ≤ a) ∧ (beta ≤ a → a ≤ v) ∧ (alpha < a → a < beta → a = v)

theorem KMrel_refl (v alpha beta : V) : KMrel v v alpha beta :=
  ⟨fun _ => le_refl v, fun _ => le_refl v, fun _ _ => rfl⟩

theorem kmMaxLoop (uchild : (Int × Int) → V) (achild : (Int × Int) → V → V → V)
    (game : CatTrapGame) (alpha0 beta : V)
    (hch : ∀ m a b, a < b → KMrel (uchild m) (achild m a b) a b) :
    ∀ (ms : List Dir) (b alpha : V), alpha = max alpha0 b → alpha < beta →
      KMrel (umaxLoop uchild game ms b) (uabMaxLoop achild game beta ms b alpha)
        alpha0 beta := by
  intro ms
  induction ms with
  | nil =>
    intro b alpha ha hab
    simp only [umaxLoop, uabMaxLoop]
    exact KMrel_refl b alpha0 beta
  | cons d rest ih =>
    intro b alpha ha hab
    have halpha0 : alpha0 ≤ alpha := ha ▸ le_max_left _ _
    have hble : b ≤ alpha := ha ▸ le_max_right _ _
    have hkm := hch (get_target_position game.cat_row game.cat_col d) alpha beta hab
    simp only [umaxLoop, uabMaxLoop, ite_lt_eq_max, ite_le_eq_max]
    set vu := uchild (get_target_position game.cat_row game.cat_col d) with hvu_def
    set va := achild (get_target_position game.cat_row game.cat_col d) alpha beta with hva_def
    by_cases hcut : beta ≤ max b va
    · rw [if_pos hcut]
      have hvab : beta ≤ va := by
        rcases le_max_iff.mp hcut with h | h
        · exact absurd (h.trans hble) (not_le.mpr hab)
        · exact h
      have hvav : va ≤ vu := hkm.2.1 hvab
      refine ⟨?_, ?_, ?_⟩
      · intro hle
        exact absurd hab (not_lt.mpr ((hcut.trans hle).trans halpha0))
      · intro _
        calc max b va ≤ max b vu := max_le_max (le_refl b) hvav
          _ ≤ umaxLoop uchild game rest (max b vu) := umaxLoop_ge_acc _ _ _ _
      · intro _ h2
        exact absurd hcut (not_le.mpr h2)
    · rw [if_neg hcut]
      have hbva_lt : max b va < beta := not_le.mp hcut
      have halpha' : max alpha (max b va) = max alpha0 (max b va) := by
        rw [ha, max_assoc, ← max_assoc b b, max_self]
      have hab' : max alpha (max b va) < beta := max_lt hab hbva_lt
      have hIH := ih (max b va) (max alpha (max b va)) halpha' hab'
      by_cases hA : va ≤ alpha
      · have hvuva : vu ≤ va := hkm.1 hA
        have hTT' : umaxLoop uchild game rest (max b vu)
            ≤ umaxLoop uchild game rest (max b va) := by
          rw [umaxLoop_factor _ _ rest (max b vu), umaxLoop_factor _ _ rest (max b va)]
          exact max_le_max (max_le_max (le_refl b) hvuva) (le_refl _)
        refine ⟨?_, ?_, ?_⟩
        · intro hle
          exact hTT'.trans (hIH.1 hle)
        · intro hge
          have haA := hIH.2.1 hge
          rw [umaxLoop_factor _ _ rest (max b va)] at haA
          have hvaA : va < uabMaxLoop achild game beta rest (max b va)
              (max alpha (max b va)) :=
            lt_of_lt_of_le (lt_of_le_of_lt hA hab) hge
          rw [umaxLoop_factor _ _ rest (max b vu)]
          rcases le_max_iff.mp haA with h | h
          · rcases le_max_iff.mp h with h' | h'
            · exact le_max_of_le_left (le_max_of_le_left h')
            · exact absurd h' (not_le.mpr hvaA)
          · exact le_max_of_le_right h
        · intro h1 h2
          have hAT' := hIH.2.2 h1 h2
          have hTA : umaxLoop uchild game rest (max b vu)
              ≤ uabMaxLoop achild game beta rest (max b va) (max alpha (max b va)) :=
            hTT'.trans hAT'.symm.le
          refine le_antisymm ?_ hTA
          have haA : uabMaxLoop achild game beta rest (max b va) (max alpha (max b va))
              ≤ max (max b va) (umaxLoop uchild game rest ⊥) := by
            rw [hAT', umaxLoop_factor _ _ rest (max b va)]
          rw [umaxLoop_factor _ _ rest (max b vu)]
          rcases le_max_iff.mp haA with h | h
          · rcases le_max_iff.mp h with h' | h'
            · exact le_max_of_le_left (le_max_of_le_left h')
            · have hAle : uabMaxLoop achild game beta rest (max b va)
                  (max alpha (max b va)) ≤ max alpha0 b := by
                rw [← ha]
                exact h'.trans hA
              rcases le_max_iff.mp hAle with h'' | h''
              · exact absurd h1 (not_lt.mpr h'')
              · exact le_max_of_le_left (le_max_of_le_left h'')
          · exact le_max_of_le_right h
      · by_cases hB : beta ≤ va
        · exact absurd (hB.trans (le_max_right b va)) hcut
        · have hmid := hkm.2.2 (not_le.mp hA) (not_le.mp hB)
          rw [← hmid]
          exact hIH

theorem kmMinLoop (uchild : (Int × Int) → V) (achild : (Int × Int) → V → V → V)
    (alpha beta0 : V)
    (hch : ∀ m a b, a < b → KMrel (uchild m) (achild m a b) a b) :
    ∀ (ms : List (Int × Int)) (b beta : V), beta = min beta0 b → alpha < beta →
      KMrel (uminLoop uchild ms b) (uabMinLoop achild alpha ms b beta) alpha beta0 := by
  intro ms
  induction ms with
  | nil =>
    intro b beta hb hab
    simp only [uminLoop, uabMinLoop]
    exact KMrel_refl b alpha beta0
  | cons m rest ih =>
    intro b beta hb hab
    have hbeta0 : beta ≤ beta0 := hb ▸ min_le_left _ _
    have hble : beta ≤ b := hb ▸ min_le_right _ _
    have hkm := hch m alpha beta hab
    simp only [uminLoop, uabMinLoop, ite_le_eq_min, ite_le_eq_min']
    set vu := uchild m with hvu_def
    set va := achild m alpha beta with hva_def
    by_cases hcut : min b va ≤ alpha
    · rw [if_pos hcut]
      have hvaa : va ≤ alpha := by
        rcases min_le_iff.mp hcut with h | h
        · exact absurd h (not_le.mpr (lt_of_lt_of_le hab hble))
        · exact h
      have hvuva : vu ≤ va := hkm.1 hvaa
      refine ⟨?_, ?_, ?_⟩
      · intro _
        calc uminLoop uchild rest (min b vu) ≤ min b vu := uminLoop_le_acc _ _ _
          _ ≤ min b va := min_le_min (le_refl b) hvuva
      · intro hge
        exact absurd (lt_of_lt_of_le hab hbeta0) (not_lt.mpr (hge.trans hcut))
      · intro h1 _
        exact absurd hcut (not_le.mpr h1)
    · rw [if_neg hcut]
      have hacut : alpha < min b va := not_le.mp hcut
      have hbeta' : min beta (min b va) = min beta0 (min b va) := by
        rw [hb, min_assoc, ← min_assoc b b, min_self]
      have hab' : alpha < min beta (min b va) := lt_min hab hacut
      have hIH := ih (min b va) (min beta (min b va)) hbeta' hab'
      by_cases hB : beta ≤ va
      · have hvava : va ≤ vu := hkm.2.1 hB
        have hTT' : uminLoop uchild rest (min b va) ≤ uminLoop uchild rest (min b vu) := by
          rw [uminLoop_factor _ rest (min b va), uminLoop_factor _ rest (min b vu)]
          exact min_le_min (min_le_min (le_refl b) hvava) (le_refl _)
        refine ⟨?_, ?_, ?_⟩
        · intro hle
          have hT'A := hIH.1 hle
          rcases le_total b va with hbv | hbv
          · have hbvu : b ≤ vu := hbv.trans hvava
            have heq : uminLoop uchild rest (min b vu) = uminLoop uchild rest (min b va) := by
              rw [min_eq_left hbvu, min_eq_left hbv]
            rw [heq]
            exact hT'A
          · have hAva : uabMinLoop achild alpha rest (min b va) (min beta (min b va))
                < va := lt_of_le_of_lt hle (lt_of_lt_of_le hab hB)
            have efact : uminLoop uchild rest (min b va)
                = min va (uminLoop uchild rest ⊤) := by
              rw [uminLoop_factor _ rest (min b va), min_eq_right hbv]
            rw [efact] at hT'A
            rcases min_le_iff.mp hT'A with h | h
            · exact absurd h (not_le.mpr hAva)
            · rw [uminLoop_factor _ rest (min b vu)]
              exact (min_le_right _ _).trans h
        · intro hge
          exact (hIH.2.1 hge).trans hTT'
        · intro h1 h2
          have hAT' := hIH.2.2 h1 h2
          have hAT : uabMinLoop achild alpha rest (min b va) (min beta (min b va))
              ≤ uminLoop uchild rest (min b vu) := hAT'.le.trans hTT'
          refine le_antisymm hAT ?_
          rcases le_total b va with hbv | hbv
          · have hbvu : b ≤ vu := hbv.trans hvava
            have hAeq : uabMinLoop achild alpha rest (min b va) (min beta (min b va))
                = min b (uminLoop uchild rest ⊤) := by
              rw [hAT', uminLoop_factor _ rest (min b va), min_eq_left hbv]
            rw [uminLoop_factor _ rest (min b vu), min_eq_left hbvu, hAeq]
          · have hAeq : uabMinLoop achild alpha rest (min b va) (min beta (min b va))
                = min va (uminLoop uchild rest ⊤) := by
              rw [hAT', uminLoop_factor _ rest (min b va), min_eq_right hbv]
            rcases le_total va (uminLoop uchild rest ⊤) with hvs | hvs
            · have hAva : uabMinLoop achild alpha rest (min b va) (min beta (min b va))
                  = va := by rw [hAeq, min_eq_left hvs]
              have hbltb0 : beta < beta0 := lt_of_le_of_lt (hB.trans hAva.ge) h2
              have hbb : beta = b := by
                rcases min_choice beta0 b with h | h
                · rw [hb, h] at hbltb0
                  exact absurd hbltb0 (lt_irrefl _)
                · rw [hb, h]
              have hvab : va = b := le_antisymm hbv (by rw [← hbb]; exact hB)
              rw [uminLoop_factor _ rest (min b vu), min_eq_left (hvab ▸ hvava : b ≤ vu)]
              exact le_of_le_of_eq (min_le_left b _) ((hAva.trans hvab).symm)
            · have hAS : uabMinLoop achild alpha rest (min b va) (min beta (min b va))
                  = uminLoop uchild rest ⊤ := by rw [hAeq, min_eq_right hvs]
              rw [uminLoop_factor _ rest (min b vu), hAS]
              exact min_le_right _ _
      · by_cases hA2 : va ≤ alpha
        · exact absurd (lt_of_lt_of_le hacut (min_le_right b va)) (not_lt.mpr hA2)
        · have hmid := hkm.2.2 (not_le.mp hA2) (not_le.mp hB)
          rw [← hmid]
          exact hIH

theorem kmNodes : ∀ (fuel : Nat) (md : Option Nat),
    (∀ (g : CatTrapGame) (move : Int × Int) (mp0 : Bool) (depth : Nat) (alpha beta : V),
      alpha < beta →
      KMrel (umax md fuel g move mp0 depth) (uabmax md fuel g move mp0 depth alpha beta)
        alpha beta) ∧
    (∀ (g : CatTrapGame) (move : Int × Int) (mp0 : Bool) (depth : Nat) (alpha beta : V),
      alpha < beta →
      KMrel (umin md fuel g move mp0 depth) (uabmin md fuel g move mp0 depth alpha beta)
        alpha beta) := by
  intro fuel
  induction fuel with
  | zero =>
    intro md
    constructor
    · intro g move mp0 depth alpha beta hab
      simp only [umax, uabmax]
      exact KMrel_refl _ _ _
    · intro g move mp0 depth alpha beta hab
      simp only [umin, uabmin]
      exact KMrel_refl _ _ _
  | succ n ih =>
    intro md
    constructor
    · intro g move mp0 depth alpha beta hab
      simp only [umax, uabmax]
      by_cases hleaf : get_valid_moves (phaseMax g move mp0).1 = [] ∨ md = some depth
      · rw [if_pos hleaf, if_pos hleaf]
        exact KMrel_refl _ _ _
      · rw [if_neg hleaf, if_neg hleaf]
        exact kmMaxLoop _ _ _ alpha beta
          (fun m a b hab' => (ih md).2 _ m _ _ a b hab')
          (get_valid_moves (phaseMax g move mp0).1) ⊥ alpha (max_eq_left bot_le).symm hab
    · intro g move mp0 depth alpha beta hab
      simp only [umin, uabmin]
      by_cases hleaf : md = some depth ∨ on_boundary (apply_move_unchecked g move (!mp0))
      · rw [if_pos hleaf, if_pos hleaf]
        exact KMrel_refl _ _ _
      · rw [if_neg hleaf, if_neg hleaf]
        exact kmMinLoop _ _ alpha beta
          (fun m a b hab' => (ih md).1 _ m _ _ a b hab')
          (empty_tiles _) ⊤ beta (min_eq_left le_top).symm hab

theorem uabmax_eq_umax (fuel : Nat) (md : Option Nat) (g : CatTrapGame) (move : Int × Int)
    (mp0 : Bool) (depth : Nat) :
    uabmax md fuel g move mp0 depth ⊥ ⊤ = umax md fuel g move mp0 depth := by
  have hkm := (kmNodes fuel md).1 g move mp0 depth ⊥ ⊤ bot_lt_top
  rcases le_or_lt (uabmax md fuel g move mp0 depth ⊥ ⊤) ⊥ with h | h
  · have ha : uabmax md fuel g move mp0 depth ⊥ ⊤ = ⊥ := le_bot_iff.mp h
    have hv := hkm.1 h
    rw [ha]
    exact (le_bot_iff.mp (ha ▸ hv)).symm
  · rcases le_or_lt ⊤ (uabmax md fuel g move mp0 depth ⊥ ⊤) with h2 | h2
    · have ha : uabmax md fuel g move mp0 depth ⊥ ⊤ = ⊤ := top_le_iff.mp h2
      have hv := hkm.2.1 h2
      rw [ha]
      exact (top_le_iff.mp (ha ▸ hv)).symm
    · exact hkm.2.2 h h2

/-- C1: for every board position and every depth bound (`md = none` is the
unbounded default), when the deadline never expires (`terminated` is never
set, modelled by a never-firing poll oracle), `alpha_beta()` returns exactly
the value `minimax()` returns on that position; the fuel bound is arbitrary
and common to both, and the two runs may start from any non-terminated
bookkeeping states. -/
theorem C1_alpha_beta_equals_minimax (clock : Clock) (hclock : ∀ t, clock t = false)
    (fuel : Nat) (md : Option Nat) (g : CatTrapGame) (mp : Bool) (st st' : SState)
    (hst : st.terminated = false) (hst' : st'.terminated = false) :
    (alpha_beta clock fuel md g mp st).1.2 = (minimax clock fuel md g mp st').1.2 := by
  unfold alpha_beta minimax
  rw [((alpha_beta_val_agree clock hclock fuel).1 md (g.cat_row, g.cat_col) g noMove
      ⊥ ⊤ mp 0 st hst).1,
    ((minimax_val_agree clock hclock fuel).1 md (g.cat_row, g.cat_col) g noMove
      mp 0 st' hst').1]
  exact uabmax_eq_umax fuel md g noMove mp 0

theorem C1_witness :
    (alpha_beta neverClock 5 (some 2) board3 true st0).1.2 =
      (minimax neverClock 5 (some 2) board3 true st0).1.2 :=
  C1_alpha_beta_equals_minimax neverClock (fun _ => rfl) 5 (some 2) board3 true st0 st0
    rfl rfl

/-! ## C5: the proximity evaluator

Spec-side formalisation of the walk: one step in a fixed direction is
`stepDir`; the recorded escape distance is governed by the *first* step index
at which the walk leaves the grid or lands on a non-empty tile (a `Nat.find`),
with the count taken plainly on grid exit and multiplied by 5 on a blocked
landing.  `walkDistance_eq_spec` proves the source's `while True` loop
computes exactly this, and `C5_score_proximity` assembles the full claim
(sentinels, ascending sort, first/second smallest by ply). -/

def stepDir (d : Dir) (p : Int × Int) : Int × Int := get_target_position p.1 p.2 d

/-- Position after `k` steps of the fixed-direction walk. -/
def posAfter (d : Dir) (p : Int × Int) (k : Nat) : Int × Int := (stepDir d)^[k] p

def outOfGrid (g : CatTrapGame) (p : Int × Int) : Prop :=
  p.1 < 0 ∨ (g.size : Int) ≤ p.1 ∨ p.2 < 0 ∨ (g.size : Int) ≤ p.2

instance (g : CatTrapGame) (p : Int × Int) : Decidable (outOfGrid g p) := by
  unfold outOfGrid; infer_instance

/-- "The walk stops after `k+1` steps": the position reached by step `k+1`
is off the grid or non-empty. -/
def stopP (g : CatTrapGame) (d : Dir) (k : Nat) : Prop :=
  outOfGrid g (posAfter d (g.cat_row, g.cat_col) (k + 1)) ∨
  gridGet g.hexgrid (posAfter d (g.cat_row, g.cat_col) (k + 1)).1
    (posAfter d (g.cat_row, g.cat_col) (k + 1)).2 ≠ EMPTY_TILE

instance (g : CatTrapGame) (d : Dir) (k : Nat) : Decidable (stopP g d k) := by
  unfold stopP; infer_instance


/-- The coordinate that the walk in direction `d` pushes up by one per step. -/
def drift (d : Dir) (p : Int × Int) : Int :=
  match d with
  | .E => p.2
  | .W => -p.2
  | .NE | .NW => -p.1
  | .SE | .SW => p.1

/-- The drift value at which that coordinate has certainly left the grid. -/
def thr (g : CatTrapGame) (d : Dir) : Int :=
  match d with
  | .E | .SE | .SW => g.size
  | .W | .NE | .NW => 1

theorem drift_step (d : Dir) (p : Int × Int) : drift d (stepDir d p) = drift d p + 1 := by
  cases d <;> simp only [stepDir, get_target_position, drift] <;> (try split_ifs) <;>
    (try simp only [drift]) <;> ring

theorem drift_posAfter (d : Dir) (p : Int × Int) :
    ∀ k : Nat, drift d (posAfter d p k) = drift d p + k := by
  intro k
  induction k with
  | zero => simp [posAfter]
  | succ n ihn =>
    unfold posAfter
    rw [Function.iterate_succ_apply']
    show drift d (stepDir d (posAfter d p n)) = _
    rw [drift_step, ihn]
    push_cast
    ring

theorem thr_out (g : CatTrapGame) (d : Dir) (hs : 1 ≤ g.size) (p : Int × Int)
    (h : thr g d ≤ drift d p) : outOfGrid g p := by
  have hs' : (1 : Int) ≤ (g.size : Int) := by exact_mod_cast hs
  cases d <;> (simp only [thr, drift, outOfGrid] at h ⊢) <;> omega

theorem exists_stop (g : CatTrapGame) (d : Dir) (hs : 1 ≤ g.size)
    (hin : inB g g.cat_row g.cat_col) :
    ∃ k : Nat, k + 1 ≤ g.size ∧ stopP g d k := by
  obtain ⟨h1, h2, h3, h4⟩ := hin
  have hD1 : thr g d - (g.size : Int) ≤ drift d (g.cat_row, g.cat_col) := by
    cases d <;> (simp only [thr, drift]) <;> omega
  have hD2 : drift d (g.cat_row, g.cat_col) ≤ thr g d - 1 := by
    cases d <;> (simp only [thr, drift]) <;> omega
  refine ⟨(thr g d - drift d (g.cat_row, g.cat_col) - 1).toNat, ?_, ?_⟩
  · omega
  · left
    apply thr_out g d hs
    rw [drift_posAfter]
    omega

/-- The fixed-direction walk always stops: its drifting coordinate grows by
one each step, so it eventually leaves the grid. -/
theorem stop_exists (g : CatTrapGame) (d : Dir) : ∃ k, stopP g d k := by
  rcases Nat.eq_zero_or_pos g.size with hs | hs
  · refine ⟨0, Or.inl ?_⟩
    unfold outOfGrid
    rw [hs]
    omega
  · refine ⟨(thr g d - drift d (g.cat_row, g.cat_col) - 1).toNat + 1, Or.inl ?_⟩
    apply thr_out g d hs
    rw [drift_posAfter]
    omega

/-- The escape distance as the spec describes it: step repeatedly in the
fixed direction; at the *first* step index at which the walk has left the
grid or landed on a non-empty tile, record the step count (grid exit) or the
step count times 5 (blocked landing). -/
def spec_walk_distance (g : CatTrapGame) (d : Dir) : Int :=
  if outOfGrid g (posAfter d (g.cat_row, g.cat_col) (Nat.find (stop_exists g d) + 1)) then
    ((Nat.find (stop_exists g d) : Int) + 1)
  else ((Nat.find (stop_exists g d) : Int) + 1) * 5

theorem find_stop_le (g : CatTrapGame) (d : Dir) (hs : 1 ≤ g.size)
    (hin : inB g g.cat_row g.cat_col) :
    Nat.find (stop_exists g d) + 1 ≤ g.size := by
  obtain ⟨k, hk, hstop⟩ := exists_stop g d hs hin
  have := Nat.find_min' (stop_exists g d) hstop
  omega

theorem walkAux_eq_spec_aux (g : CatTrapGame) (d : Dir) :
    ∀ (fuel j : Nat),
      Nat.find (stop_exists g d) + 1 ≤ j + fuel →
      (∀ i, i < j → ¬ stopP g d i) →
      walkAux g d fuel (j : Int) (posAfter d (g.cat_row, g.cat_col) j).1
          (posAfter d (g.cat_row, g.cat_col) j).2
        = spec_walk_distance g d := by
  intro fuel
  induction fuel with
  | zero =>
    intro j hfuel hless
    exact absurd (Nat.find_spec (stop_exists g d)) (hless _ (by omega))
  | succ n ihn =>
    intro j hfuel hless
    have hstep' : get_target_position (posAfter d (g.cat_row, g.cat_col) j).1
        (posAfter d (g.cat_row, g.cat_col) j).2 d
        = posAfter d (g.cat_row, g.cat_col) (j + 1) := by
      show stepDir d (posAfter d (g.cat_row, g.cat_col) j)
        = posAfter d (g.cat_row, g.cat_col) (j + 1)
      unfold posAfter
      rw [Function.iterate_succ_apply']
    have hge : j ≤ Nat.find (stop_exists g d) :=
      le_of_not_lt (fun hlt => hless _ hlt (Nat.find_spec _))
    simp only [walkAux]
    rw [hstep']
    by_cases hout : outOfGrid g (posAfter d (g.cat_row, g.cat_col) (j + 1))
    · have hout' := hout
      unfold outOfGrid at hout'
      rw [if_pos hout']
      have hstopj : stopP g d j := Or.inl hout
      have hfind : Nat.find (stop_exists g d) = j :=
        le_antisymm (Nat.find_min' _ hstopj) hge
      unfold spec_walk_distance
      rw [hfind, if_pos hout]
    · have hout' := hout
      unfold outOfGrid at hout'
      rw [if_neg hout']
      by_cases hne : gridGet g.hexgrid (posAfter d (g.cat_row, g.cat_col) (j + 1)).1
          (posAfter d (g.cat_row, g.cat_col) (j + 1)).2 ≠ EMPTY_TILE
      · rw [if_pos hne]
        have hstopj : stopP g d j := Or.inr hne
        have hfind : Nat.find (stop_exists g d) = j :=
          le_antisymm (Nat.find_min' _ hstopj) hge
        unfold spec_walk_distance
        rw [hfind, if_neg hout]
      · rw [if_neg hne]
        have hnostop : ¬ stopP g d j := by
          unfold stopP
          push_neg
          exact ⟨hout, not_not.mp hne⟩
        have hless' : ∀ i, i < j + 1 → ¬ stopP g d i := by
          intro i hi
          rcases Nat.lt_succ_iff_lt_or_eq.mp hi with h | h
          · exact hless i h
          · exact h ▸ hnostop
        have := ihn (j + 1) (by omega) hless'
        rw [show ((j : Int) + 1) = ((j + 1 : Nat) : Int) from by push_cast; ring]
        exact this

/-- The source walk computes exactly the spec's first-stop distance. -/
theorem walkDistance_eq_spec (g : CatTrapGame) (d : Dir) (hs : 1 ≤ g.size)
    (hin : inB g g.cat_row g.cat_col) :
    walkDistance g d = spec_walk_distance g d := by
  have hb := find_stop_le g d hs hin
  have h0 : ∀ i, i < 0 → ¬ stopP g d i := by omega
  have := walkAux_eq_spec_aux g d (g.size + 1) 0 (by omega) h0
  unfold walkDistance walk_fuel
  simpa [posAfter] using this

/-- C5: `score_proximity` walks each currently valid direction to its first
stop (grid exit: step count; blocked landing: step count × 5 — the spec-side
`spec_walk_distance`), appends the two sentinel distances 100, sorts
ascending, and returns `2·N` minus the smallest distance on the evader's
(maximizing) ply and minus the second smallest otherwise. -/
theorem C5_score_proximity (g : CatTrapGame) (mp : Bool) (hs : 1 ≤ g.size)
    (hin : inB g g.cat_row g.cat_col) :
    (let dists := (100 : Int) :: 100 :: (get_valid_moves g).map (spec_walk_distance g);
     let sorted := dists.insertionSort (· ≤ ·);
     sorted.Sorted (· ≤ ·) ∧ sorted.Perm dists ∧
     score_proximity g mp =
       (g.size : Int) * 2 - (if mp then sorted.getD 0 0 else sorted.getD 1 0)) := by
  refine ⟨List.sorted_insertionSort _ _, List.perm_insertionSort _ _, ?_⟩
  unfold score_proximity
  have hmap : (get_valid_moves g).map (walkDistance g)
      = (get_valid_moves g).map (spec_walk_distance g) :=
    List.map_congr_left (fun d _ => walkDistance_eq_spec g d hs hin)
  rw [hmap]
  rfl

theorem C5_witness :
    (let dists := (100 : Int) :: 100 :: (get_valid_moves board3).map (spec_walk_distance board3);
     let sorted := dists.insertionSort (· ≤ ·);
     sorted.Sorted (· ≤ ·) ∧ sorted.Perm dists ∧
     score_proximity board3 true =
       (board3.size : Int) * 2 - (if true then sorted.getD 0 0 else sorted.getD 1 0)) :=
  C5_score_proximity board3 true (by decide) (by decide)
